import Mathlib

set_option autoImplicit false

/-!
Shallow embedding of the COCOAnnotationMerger repository's merge engine:
the homogeneous merger (scripts/coco_annotation_merger.py), the
heterogeneous pair merger (scripts/strawberry_flower_annotation.py), the
heterogeneous directory combiner
(scripts/strawberry_flower_annotations_combiner.py) and the geometry
normalizer (app/scripts/convert_segmentation_to_bbox.py).

Python dicts loaded from JSON are embedded as structures whose optional
keys are `Option` fields; `d.get(k, default)` becomes `field.getD default`.
Python ints are `Int`; JSON numbers are `Rat`. In-place mutation of loaded
data (the pair merger mutates its sources) is embedded by explicit state
passing: the mutating function also returns the post-state of the list it
mutates.
-/

namespace CocoMerge

/-- A JSON scalar. A number is a rational (covers both Python `int` and
`float`). -/
inductive JAtom where
  | num (x : Rat)
  | str (s : String)
  | null
  deriving DecidableEq, Repr

/-- JSON values as they occur in payload fields of an annotation record
(`bbox`, polygons inside `segmentation`, `confidence`, `orientation`).
Arrays hold scalars — deep enough for everything the code inspects (the
only array it ever looks into is `bbox`, a flat list of numbers). -/
inductive JVal where
  | atom (a : JAtom)
  | arr (l : List JAtom)
  deriving DecidableEq, Repr

/-- An annotation record. `bbox` may be absent or hold any JSON value
(the normalizer checks it is a list of 4 nonnegative numbers);
`confidence` / `orientation` are optional pass-through fields. -/
structure Ann where
  id : Int
  image_id : Int
  category_id : Int
  bbox : Option JVal
  segmentation : List JVal
  area : Option JVal
  iscrowd : Option JVal
  confidence : Option JVal
  orientation : Option JVal
  deriving DecidableEq, Repr

/-! ## Geometry normalizer (convert_segmentation_to_bbox.py) -/

/-- The Python bbox check in `clean_annotations`:
`"bbox" in ann and isinstance(ann["bbox"], list) and len(...) == 4 and
all(isinstance(v, (int, float)) and v >= 0 for v in ann["bbox"])`. -/
def validBBox : Option JVal → Bool
  | some (.arr l) =>
      l.length == 4 &&
      l.all (fun v => match v with
        | .num x => decide (0 ≤ x)
        | _ => false)
  | _ => false

/-- One loop iteration of `clean_annotations`: set `segmentation` to `[]`
(the Python code mutates the record before testing the bbox), then keep
the record only if its bbox is valid. -/
def cleanStep (a : Ann) : Option Ann :=
  let a := { a with segmentation := [] }
  if validBBox a.bbox then some a else none

/-- The converter's in-memory COCO document (`self.coco_data`): the five
top-level keys may each be absent. Non-annotation payloads are opaque. -/
structure ConvData where
  info : Option (List (String × JVal))
  licenses : Option (List JVal)
  images : Option (List JVal)
  categories : Option (List JVal)
  annotations : Option (List Ann)
  deriving DecidableEq, Repr

/-- `clean_annotations`: iterate over `coco_data.get("annotations", [])`,
set each record's `segmentation` to `[]`, collect those whose bbox passes
`validBBox`, and store the collected list back under `"annotations"`. -/
def clean_annotations (d : ConvData) : ConvData :=
  { d with annotations := some ((d.annotations.getD []).filterMap cleanStep) }

/-! ## Shared record types for the mergers -/

/-- A license record; `name`/`url` may be absent (the merger reads them
with `license.get("name", "")` / `license.get("url", "")`). -/
structure License where
  id : Int
  name : Option String
  url : Option String
  deriving DecidableEq, Repr

/-- A category record; `supercategory` may be absent. -/
structure Category where
  id : Int
  name : String
  supercategory : Option String
  deriving DecidableEq, Repr

/-- An image record; `license` may be absent, `width`/`height` are
payload never inspected by the mergers. -/
structure Image where
  id : Int
  file_name : String
  width : Option Int
  height : Option Int
  license : Option Int
  deriving DecidableEq, Repr

/-- First-match association-list lookup (used for the merger's id maps,
where a freshly inserted binding is consed to the front so that the most
recent binding for a key wins, matching Python dict assignment). -/
def alookup {κ β : Type} [DecidableEq κ] (k : κ) : List (κ × β) → Option β
  | [] => none
  | p :: t => if k = p.1 then some p.2 else alookup k t

/-! ## Homogeneous merger (coco_annotation_merger.py) -/

/-- One loaded source file, as the merger sees it: every top-level key is
read with `coco_data.get(key, default)` (or a guarded `"info" in
coco_data`), so each of the five keys may be absent. -/
structure CocoData where
  info : Option (List (String × JVal))
  licenses : Option (List License)
  images : Option (List Image)
  annotations : Option (List Ann)
  categories : Option (List Category)
  deriving DecidableEq, Repr

/-- The `COCOAnnotationMerger` instance state: the accumulating
`merged_data` dict, the three dedup/remap maps and the four id counters. -/
structure MergerState where
  info : List (String × JVal)
  licenses : List License
  images : List Image
  annotations : List Ann
  categories : List Category
  license_map : List ((String × String) × Int)
  category_map : List ((String × String) × Int)
  image_id_map : List (Int × Int)
  next_license_id : Int
  next_category_id : Int
  next_image_id : Int
  next_annotation_id : Int
  deriving DecidableEq, Repr

/-- The state built by `__init__`: empty `merged_data`, empty maps, all
counters at 1. -/
def initState : MergerState :=
  { info := [], licenses := [], images := [], annotations := [],
    categories := [], license_map := [], category_map := [],
    image_id_map := [], next_license_id := 1, next_category_id := 1,
    next_image_id := 1, next_annotation_id := 1 }

/-- `info.get("date_created", "")`, read as a string (the code compares
it with `>`; inputs are assumed to carry strings there). -/
def getDateCreated (info : List (String × JVal)) : String :=
  match alookup "date_created" info with
  | some (.atom (.str s)) => s
  | _ => ""

/-- `process_info`: adopt the incoming `info` when the merged one is
still empty or the incoming `date_created` is lexicographically newer. -/
def process_info (st : MergerState) (d : CocoData) : MergerState :=
  match d.info with
  | none => st
  | some i =>
      if st.info.isEmpty || decide (getDateCreated st.info < getDateCreated i)
      then { st with info := i } else st

/-- The license natural key `(license.get("name", ""), license.get("url", ""))`. -/
def licenseKey (l : License) : String × String := (l.name.getD "", l.url.getD "")

/-- One iteration of the `process_licenses` loop: if the key is unseen,
record it in `license_map`, append a copy carrying the fresh id and
advance the counter; otherwise do nothing. -/
def internLicense (st : MergerState) (l : License) : MergerState :=
  match alookup (licenseKey l) st.license_map with
  | some _ => st
  | none =>
      { st with
        license_map := (licenseKey l, st.next_license_id) :: st.license_map,
        licenses := st.licenses ++ [{ l with id := st.next_license_id }],
        next_license_id := st.next_license_id + 1 }

/-- `process_licenses`: fold `internLicense` over `coco_data.get("licenses", [])`. -/
def process_licenses (st : MergerState) (d : CocoData) : MergerState :=
  (d.licenses.getD []).foldl internLicense st

/-- The category natural key `(category["name"], category.get("supercategory", ""))`. -/
def catKey (c : Category) : String × String := (c.name, c.supercategory.getD "")

/-- One iteration of the `process_categories` loop (same pattern as
`internLicense`, keyed by the category natural key). -/
def internCategory (st : MergerState) (c : Category) : MergerState :=
  match alookup (catKey c) st.category_map with
  | some _ => st
  | none =>
      { st with
        category_map := (catKey c, st.next_category_id) :: st.category_map,
        categories := st.categories ++ [{ c with id := st.next_category_id }],
        next_category_id := st.next_category_id + 1 }

/-- `process_categories`: fold `internCategory` over `coco_data.get("categories", [])`. -/
def process_categories (st : MergerState) (d : CocoData) : MergerState :=
  (d.categories.getD []).foldl internCategory st

/-- One iteration of the `process_images` loop: record
`image_id_map[old] = next_image_id` (a fresh binding shadowing any older
one, as Python dict assignment does), copy the record with the fresh id,
rewrite its `license` field through `license_map` when the source file
has a license with the referenced id and its key was interned, append,
and advance the counter. -/
def process_image (d : CocoData) (st : MergerState) (img : Image) : MergerState :=
  let newImg : Image := { img with id := st.next_image_id }
  let newImg : Image :=
    match img.license with
    | none => newImg
    | some oldLic =>
        match (d.licenses.getD []).find? (fun l => l.id == oldLic) with
        | some l =>
            match alookup (licenseKey l) st.license_map with
            | some nid => { newImg with license := some nid }
            | none => newImg
        | none => newImg
  { st with
    image_id_map := (img.id, st.next_image_id) :: st.image_id_map,
    images := st.images ++ [newImg],
    next_image_id := st.next_image_id + 1 }

/-- `process_images`: fold over `coco_data.get("images", [])`. -/
def process_images (st : MergerState) (d : CocoData) : MergerState :=
  (d.images.getD []).foldl (process_image d) st

/-- One iteration of the `process_annotations` loop: drop the record when
its `image_id` is not a key of `image_id_map`; otherwise copy it with a
fresh id, rewrite `image_id` through the map, rewrite `category_id`
through `category_map` when the source file's first category with the
referenced id has an interned key, and append. (`confidence` and
`orientation` are re-assigned verbatim in the Python code; the record
copy already carries them.) -/
def process_ann (d : CocoData) (st : MergerState) (a : Ann) : MergerState :=
  match alookup a.image_id st.image_id_map with
  | none => st
  | some newImgId =>
      let newAnn : Ann := { a with id := st.next_annotation_id, image_id := newImgId }
      let newAnn : Ann :=
        match (d.categories.getD []).find? (fun c => c.id == a.category_id) with
        | some c =>
            match alookup (catKey c) st.category_map with
            | some newCat => { newAnn with category_id := newCat }
            | none => newAnn
        | none => newAnn
      { st with
        annotations := st.annotations ++ [newAnn],
        next_annotation_id := st.next_annotation_id + 1 }

/-- `process_annotations`: fold over `coco_data.get("annotations", [])`. -/
def process_anns (st : MergerState) (d : CocoData) : MergerState :=
  (d.annotations.getD []).foldl (process_ann d) st

/-- The per-file body of `process_all_files`: the five processing steps
in source order. -/
def process_file (st : MergerState) (d : CocoData) : MergerState :=
  process_anns (process_images (process_categories (process_licenses
    (process_info st d) d) d) d) d

/-- `process_all_files` on an already-decoded list of files. -/
def process_all_files (ds : List CocoData) : MergerState :=
  ds.foldl process_file initState

/-- The merger's only abort cause reachable in `process_all_files`:
`json.load` raising on a malformed file. -/
inductive MergeError where
  | malformedJSON
  deriving DecidableEq, Repr

/-- The written output: `clean_empty_fields` deletes every top-level key
whose value is empty, so each key may be absent. -/
structure MergedOut where
  info : Option (List (String × JVal))
  licenses : Option (List License)
  images : Option (List Image)
  annotations : Option (List Ann)
  categories : Option (List Category)
  deriving DecidableEq, Repr

/-- Drop a list that is empty (Python-falsy), keep it otherwise. -/
def dropEmpty {α : Type} (l : List α) : Option (List α) :=
  if l.isEmpty then none else some l

/-- `clean_empty_fields`: delete the falsy top-level fields of `merged_data`. -/
def clean_empty_fields (st : MergerState) : MergedOut :=
  { info := if st.info.isEmpty then none else some st.info,
    licenses := dropEmpty st.licenses,
    images := dropEmpty st.images,
    annotations := dropEmpty st.annotations,
    categories := dropEmpty st.categories }

/-- Loading and processing one file inside `process_all_files`: a `none`
input stands for a file `json.load` rejects (`process_all_files` aborts
right there), a `some d` input is processed into the state. -/
def loadStep (st : MergerState) (f : Option CocoData) :
    Except MergeError MergerState :=
  match f with
  | none => Except.error MergeError.malformedJSON
  | some d => Except.ok (process_file st d)

/-- `run` for the homogeneous merger: walk the files with `loadStep`; on
success the cleaned merged dataset is the value written to the output
file (an abort propagates before any output exists). -/
def mergerRun (files : List (Option CocoData)) : Except MergeError MergedOut := do
  let st ← files.foldlM loadStep initState
  Except.ok (clean_empty_fields st)

/-! ## Heterogeneous pair merger (strawberry_flower_annotation.py) -/

/-- Python dict construction from a stream of key/value assignments:
keys keep their first-insertion position, a repeated assignment
overwrites the value in place. -/
def pyDict {κ β : Type} [DecidableEq κ] (l : List (κ × β)) : List (κ × β) :=
  l.foldl (fun acc p =>
    if (acc.map Prod.fst).contains p.1
    then acc.map (fun q => if q.1 = p.1 then (q.1, p.2) else q)
    else acc ++ [p]) []

/-- `d.get(k)` on an embedded dict (first match; `pyDict` keeps keys unique). -/
def pyGet {κ β : Type} [DecidableEq κ] : List (κ × β) → κ → Option β
  | [], _ => none
  | p :: t, k => if p.1 = k then some p.2 else pyGet t k

/-- `set(d1) | set(d2)` over dict keys. Python set iteration order is
unspecified; this embedding fixes one enumeration (first side's keys
first, duplicates removed keeping first occurrences). No verified
property below depends on the order chosen. -/
def unionKeys {κ β γ : Type} [DecidableEq κ] (d1 : List (κ × β)) (d2 : List (κ × γ)) : List κ :=
  (d1.map Prod.fst ++ d2.map Prod.fst).dedup

/-- A source file of the pair merger: `images`, `annotations` and
`categories` are indexed directly (so must be present), `info` and
`licenses` are read with `.get(key, default)`. -/
structure PairData where
  info : Option (List (String × JVal))
  licenses : Option (List License)
  images : List Image
  annotations : List Ann
  categories : List Category
  deriving DecidableEq, Repr

/-- `get_category_ids(data)[name]` read with `.get(name)`:
the dict `{cat["name"]: cat["id"] for cat in data["categories"]}`. -/
def pyGetName (cats : List Category) (n : String) : Option Int :=
  pyGet (pyDict (cats.map (fun c => (c.name, c.id)))) n

/-- The dict `{img["id"]: img["file_name"] for img in data["images"]}`. -/
def imageMapOf (imgs : List Image) : List (Int × String) :=
  pyDict (imgs.map (fun im => (im.id, im.file_name)))

/-- Python truthiness of an optional integer (`None` and `0` are falsy). -/
def truthyOptInt : Option Int → Bool
  | none => false
  | some i => i != 0

/-- One iteration of the `organize_annotations` loop, with the in-place
mutation made explicit: returns the post-state of the record (mutated
only on the `new_flower_id and category_id == valid["flower"]` path,
which is inside the branch that also groups the record) together with
the optional `(file_name, record)` pair appended to the groups. An empty
`file_name` is Python-falsy and skips the record. (When `new_flower_id`
is truthy the program always passes a `valid` dict holding the key
`"flower"`; the `getD 0` default is never reached on the program's own
calls.) -/
def organize_step (imgs : List Image) (valid : List (String × Int))
    (newFlowerId : Option Int) (a : Ann) : Ann × Option (String × Ann) :=
  if ((pyDict valid).map Prod.snd).contains a.category_id then
    match pyGet (imageMapOf imgs) a.image_id with
    | none => (a, none)
    | some fn =>
        if fn = "" then (a, none)
        else
          let a' :=
            if truthyOptInt newFlowerId &&
               a.category_id == (pyGet (pyDict valid) "flower").getD 0
            then { a with category_id := newFlowerId.getD 0 }
            else a
          (a', some (fn, a'))
  else (a, none)

/-- `organize_annotations(data, valid_categories, new_flower_id)`:
first component is the grouped `(file_name, record)` stream (the
defaultdict's accumulated appends, in loop order), second component is
the post-state of `data["annotations"]` — the loop mutates matched
flower records in place, so the merge leaves the loaded source list in
this state. -/
def organize_annotations (d : PairData) (valid : List (String × Int))
    (newFlowerId : Option Int) : List (String × Ann) × List Ann :=
  (d.annotations.filterMap (fun a => (organize_step d.images valid newFlowerId a).2),
   d.annotations.map (fun a => (organize_step d.images valid newFlowerId a).1))

/-- `grouped.get(file_name, [])` on the grouped stream: all records
appended under that filename, in order. -/
def groupGet (g : List (String × Ann)) (fn : String) : List Ann :=
  g.filterMap (fun p => if p.1 = fn then some p.2 else none)

/-- The dict `{img["file_name"]: img for img in data["images"]}`. -/
def mkFileDict (imgs : List Image) : List (String × Image) :=
  pyDict (imgs.map (fun im => (im.file_name, im)))

/-- The inner stamping loop shared by both heterogeneous mergers: give
every record of the block the image's merged id and the next sequential
annotation ids starting at `c`; also returns the advanced counter. -/
def stampAnns (imgId : Int) (c : Int) : List Ann → List Ann × Int
  | [] => ([], c)
  | a :: t =>
      let r := stampAnns imgId (c + 1) t
      ({ a with image_id := imgId, id := c } :: r.1, r.2)

/-- One iteration of the first loop of `merge_annotations`: take
`strawberry_imgs.get(file_name, flower_imgs.get(file_name))`, stamp it
with the next sequential image id and store it under the filename. (The
branch where a filename is in neither dict cannot occur — every united
key comes from one of the dicts; Python would raise there.) -/
def merge_img_step (sImgs fImgs : List (String × Image))
    (acc : List (String × Image) × Int) (fn : String) :
    List (String × Image) × Int :=
  match (pyGet sImgs fn).or (pyGet fImgs fn) with
  | some img => (acc.1 ++ [(fn, { img with id := acc.2 })], acc.2 + 1)
  | none => acc

/-- The merged image dict after the first loop of `merge_annotations`. -/
def merged_images_dict (sImgs fImgs : List (String × Image)) :
    List (String × Image) :=
  ((unionKeys sImgs fImgs).foldl (merge_img_step sImgs fImgs) ([], 1)).1

/-- One iteration of the second loop of `merge_annotations`:
concatenate the two sides' annotation groups for the entry's filename
and stamp them with the image's merged id and sequential annotation ids. -/
def merge_ann_step (sAnns fAnns : List (String × Ann))
    (acc : List Ann × Int) (p : String × Image) : List Ann × Int :=
  let combined := groupGet sAnns p.1 ++ groupGet fAnns p.1
  let s := stampAnns p.2.id acc.2 combined
  (acc.1 ++ s.1, s.2)

/-- `merge_annotations`: build the merged image dict, then stamp the
grouped annotations per merged image; returns
`(list(merged_images.values()), merged_annotations)`. -/
def merge_annotations (sImgs fImgs : List (String × Image))
    (sAnns fAnns : List (String × Ann)) : List Image × List Ann :=
  let m := merged_images_dict sImgs fImgs
  let r := m.foldl (merge_ann_step sAnns fAnns) ([], 1)
  (m.map Prod.snd, r.1)

/-- The pair merger's abort cause: `raise ValueError("Missing expected
categories in input files.")`. -/
inductive PairError where
  | missingExpectedCategories
  deriving DecidableEq, Repr

/-- The pair merger's written output (`final_coco`): all five keys are
always present. -/
structure PairOut where
  info : List (String × JVal)
  licenses : List License
  images : List Image
  annotations : List Ann
  categories : List Category
  deriving DecidableEq, Repr

/-- `merge()`: look up `fruit_ripe`/`fruit_unripe` in the primary and
`flower` in the secondary, abort unless all three ids are truthy, give
the flower category the id `max(id_ripe, id_unripe) + 1`, organize both
sides' annotations (rewriting the flower id while grouping the secondary
side), merge by filename and emit the fixed three-entry category list.
The output `categories` entries are fresh `id`/`name`-only dicts, so
`supercategory` is absent. -/
def pairMerge (s f : PairData) : Except PairError PairOut :=
  let fruit_ripe_id := pyGetName s.categories "fruit_ripe"
  let fruit_unripe_id := pyGetName s.categories "fruit_unripe"
  let flower_original_id := pyGetName f.categories "flower"
  if truthyOptInt fruit_ripe_id && truthyOptInt fruit_unripe_id &&
     truthyOptInt flower_original_id then
    let ripe := fruit_ripe_id.getD 0
    let unripe := fruit_unripe_id.getD 0
    let flower_new_id := max ripe unripe + 1
    let sOrg := organize_annotations s (s.categories.map (fun c => (c.name, c.id))) none
    let fOrg := organize_annotations f [("flower", flower_original_id.getD 0)]
                  (some flower_new_id)
    let merged := merge_annotations (mkFileDict s.images) (mkFileDict f.images)
                    sOrg.1 fOrg.1
    Except.ok
      { info := s.info.getD [],
        licenses := s.licenses.getD [],
        images := merged.1,
        annotations := merged.2,
        categories :=
          [ { id := ripe, name := "fruit_ripe", supercategory := none },
            { id := unripe, name := "fruit_unripe", supercategory := none },
            { id := flower_new_id, name := "flower", supercategory := none } ] }
  else Except.error PairError.missingExpectedCategories

/-! ## Heterogeneous directory combiner
(strawberry_flower_annotations_combiner.py) -/

/-- One iteration of the `combine_datasets` loop over the united
filename set, accumulator `(final_images, final_annotations,
image_id_counter, annotation_id_counter)`: take
`straw_dict.get(name, flower_dict.get(name))`, stamp its image with the
next image id, concatenate the two sides' annotation lists for the name
and stamp them with sequential annotation ids and the image's id. (The
per-category stats counter, used only for printing, is not modelled.) -/
def combine_step (sd fd : List (String × (Image × List Ann)))
    (acc : List Image × List Ann × Int × Int) (name : String) :
    List Image × List Ann × Int × Int :=
  match (pyGet sd name).or (pyGet fd name) with
  | none => acc
  | some pr =>
      let imgC := acc.2.2.1
      let annC := acc.2.2.2
      let img := { pr.1 with id := imgC }
      let annsS := ((pyGet sd name).map (fun q => q.2)).getD []
      let annsF := ((pyGet fd name).map (fun q => q.2)).getD []
      let s := stampAnns imgC annC (annsS ++ annsF)
      (acc.1 ++ [img], acc.2.1 ++ s.1, imgC + 1, s.2)

/-- `combine_datasets(straw_dict, flower_dict)` restricted to its
`(final_images, final_annotations)` result. -/
def combine_datasets (sd fd : List (String × (Image × List Ann))) :
    List Image × List Ann :=
  let r := (unionKeys sd fd).foldl (combine_step sd fd) ([], [], 1, 1)
  (r.1, r.2.1)

/-! ## Derived notions used to state the verified properties -/

/-- The dense id sequence `start, start+1, ..., start+n-1`. -/
def intRange (c : Int) : Nat → List Int
  | 0 => []
  | n + 1 => c :: intRange (c + 1) n

/-- The state of the homogeneous merger just before its annotation loop
runs on file `d` (after `process_info`, `process_licenses`,
`process_categories` and `process_images` for `d`). -/
def stBeforeAnns (st : MergerState) (d : CocoData) : MergerState :=
  process_images (process_categories (process_licenses
    (process_info st d) d) d) d

/-- All original image ids occurring in a list of source files, in file
order — the homogeneous merger's `image_id_map` accumulates exactly
these keys. -/
def oldImageIds (ds : List CocoData) : List Int :=
  ds.foldr (fun d acc => (d.images.getD []).map Image.id ++ acc) []

/-- The dense-id invariant the homogeneous merger maintains: each of the
four output lists carries the ids `1..N` in order, and each counter
stands at `N + 1`. -/
def denseState (st : MergerState) : Prop :=
  st.licenses.map License.id = intRange 1 st.licenses.length ∧
  st.next_license_id = 1 + (st.licenses.length : Int) ∧
  st.categories.map Category.id = intRange 1 st.categories.length ∧
  st.next_category_id = 1 + (st.categories.length : Int) ∧
  st.images.map Image.id = intRange 1 st.images.length ∧
  st.next_image_id = 1 + (st.images.length : Int) ∧
  st.annotations.map Ann.id = intRange 1 st.annotations.length ∧
  st.next_annotation_id = 1 + (st.annotations.length : Int)

/-- The referential-integrity invariant of the homogeneous merger state:
every `image_id_map` value is a merged image id, every `category_map`
value is a merged category id, and every merged annotation's `image_id`
and `category_id` resolve in the merged lists. -/
def refState (st : MergerState) : Prop :=
  (∀ p ∈ st.image_id_map, ∃ img ∈ st.images, img.id = p.2) ∧
  (∀ p ∈ st.category_map, ∃ c ∈ st.categories, c.id = p.2) ∧
  (∀ a ∈ st.annotations, ∃ img ∈ st.images, img.id = a.image_id) ∧
  (∀ a ∈ st.annotations, ∃ c ∈ st.categories, c.id = a.category_id)

/-- The image side of the referential-integrity invariant on its own:
unlike the category side, it holds for every input whatsoever, because a
kept annotation's `image_id` always comes out of `image_id_map`, whose
values are always ids of appended images. -/
def refStateImg (st : MergerState) : Prop :=
  (∀ p ∈ st.image_id_map, ∃ img ∈ st.images, img.id = p.2) ∧
  (∀ a ∈ st.annotations, ∃ img ∈ st.images, img.id = a.image_id)

/-! ## Concrete inputs used as counterexamples and witnesses -/

/-- A source file whose single annotation carries a `category_id` (99)
that matches none of the file's categories: the merger keeps it with the
id unrewritten, leaving a dangling category reference in the output. -/
def c1badFile : CocoData :=
  { info := none, licenses := none,
    images := some [⟨1, "a.jpg", none, none, none⟩],
    annotations := some [⟨5, 1, 99, none, [], none, none, none, none⟩],
    categories := some [⟨1, "c", none⟩] }

/-- A well-formed source file: its annotation's `category_id` occurs
among its own categories. -/
def c1goodFile : CocoData :=
  { info := none, licenses := none,
    images := some [⟨1, "a.jpg", none, none, none⟩],
    annotations := some [⟨3, 1, 1, none, [], none, none, none, none⟩],
    categories := some [⟨1, "c", none⟩] }

/-- The annotation `c1goodFile`'s annotation becomes in the merged
output (fresh id 1, image_id remapped to 1, category_id interned to 1). -/
def c1outAnn : Ann := ⟨1, 1, 1, none, [], none, none, none, none⟩

/-- A one-entry primary image dict for the C1 pair-merge witness. -/
def c1simgs : List (String × Image) := [("a.jpg", ⟨1, "a.jpg", none, none, none⟩)]

/-- One grouped annotation under that filename. -/
def c1sanns : List (String × Ann) :=
  [("a.jpg", ⟨1, 1, 1, none, [], none, none, none, none⟩)]

/-- The annotation `merge_annotations` emits for `c1simgs`/`c1sanns`:
stamped with image id 1 and annotation id 1. -/
def c1pairAnn : Ann := ⟨1, 1, 1, none, [], none, none, none, none⟩

/-- A one-file primary dict for the C1 directory-combiner witness. -/
def c1sd : List (String × (Image × List Ann)) :=
  [("a.jpg", (⟨1, "a.jpg", none, none, none⟩,
    [⟨1, 1, 1, none, [], none, none, none, none⟩]))]

/-- The annotation `combine_datasets` emits for `c1sd`. -/
def c1dirAnn : Ann := ⟨1, 1, 1, none, [], none, none, none, none⟩

/-- A primary pair-merger input whose category ids start at 2 — legal,
but then the output category ids are 2, 3, 4 rather than 1, 2, 3. -/
def c2straw : PairData :=
  { info := none, licenses := none, images := [], annotations := [],
    categories := [⟨2, "fruit_ripe", none⟩, ⟨3, "fruit_unripe", none⟩] }

/-- The matching secondary input for `c2straw`. -/
def c2flower : PairData :=
  { info := none, licenses := none, images := [], annotations := [],
    categories := [⟨7, "flower", none⟩] }

/-- A first source file contributing the original image id 7. -/
def c3fileA : CocoData :=
  { info := none, licenses := none,
    images := some [⟨7, "x.jpg", none, none, none⟩],
    annotations := some [], categories := none }

/-- A second source file with no images but an annotation whose
`image_id` 7 matches only the first file's image: the merger keeps it
through the accumulated map although its own file has no such image. -/
def c3fileB : CocoData :=
  { info := none, licenses := none, images := some [],
    annotations := some [⟨1, 7, 1, none, [], none, none, none, none⟩],
    categories := none }

/-- A one-image source file (original image id 4) for the C3 witness. -/
def c3dW : CocoData :=
  { info := none, licenses := none,
    images := some [⟨4, "w.jpg", none, none, none⟩],
    annotations := some [], categories := none }

/-- An annotation whose `image_id` (42) is in no map. -/
def c3aDrop : Ann := ⟨1, 42, 1, none, [], none, none, none, none⟩

/-- An annotation whose `image_id` (7) is a key of `c3stW`'s map. -/
def c3aKeep : Ann := ⟨1, 7, 1, none, [], none, none, none, none⟩

/-- A merger state whose image id map binds old id 7 to new id 1. -/
def c3stW : MergerState := { initState with image_id_map := [(7, 1)] }

/-- A category whose natural key is already interned in `c4st`. -/
def c4cat : Category := ⟨5, "cat", none⟩

/-- A merger state that has already interned the key `("cat", "")`. -/
def c4st : MergerState := { initState with category_map := [(("cat", ""), 1)] }

/-- A source file with two categories (one sharing `c4cat`'s key). -/
def c4file : CocoData :=
  { info := none, licenses := none, images := none, annotations := none,
    categories := some [⟨5, "cat", none⟩, ⟨9, "dog", some "animal"⟩] }

/-- A decoded file missing all five required top-level fields. -/
def c5empty : CocoData :=
  { info := none, licenses := none, images := none, annotations := none,
    categories := none }

/-- A primary input with categories `fruit_ripe(1)`, `fruit_unripe(2)`
(the spec's pair-merge scenario). -/
def c6straw : PairData :=
  { info := none, licenses := none,
    images := [⟨1, "s.jpg", none, none, none⟩],
    annotations := [⟨1, 1, 1, none, [], none, none, none, none⟩],
    categories := [⟨1, "fruit_ripe", none⟩, ⟨2, "fruit_unripe", none⟩] }

/-- A secondary input with category `flower(7)`. -/
def c6flower : PairData :=
  { info := none, licenses := none,
    images := [⟨1, "f.jpg", none, none, none⟩],
    annotations := [⟨1, 1, 7, none, [], none, none, none, none⟩],
    categories := [⟨7, "flower", none⟩] }

/-- An annotation dropped by the normalizer (negative bbox entry, the
spec's own scenario) next to one it keeps. -/
def c7data : ConvData :=
  { info := none, licenses := none, images := none, categories := none,
    annotations := some
      [⟨1, 1, 1, some (.arr [.num 10, .num 10, .num (-5), .num 20]),
          [JVal.arr []], none, none, none, none⟩,
       ⟨2, 1, 1, some (.arr [.num 0, .num 0, .num 5, .num 5]),
          [JVal.arr []], none, none, none, none⟩] }

/-- The annotation the normalizer keeps out of `c7data`, with its
`segmentation` cleared. -/
def c7kept : Ann :=
  ⟨2, 1, 1, some (.arr [.num 0, .num 0, .num 5, .num 5]),
    [], none, none, none, none⟩

/-- A primary pair-merger input with no images (C9). -/
def c9straw : PairData :=
  { info := none, licenses := none, images := [], annotations := [],
    categories := [⟨1, "fruit_ripe", none⟩, ⟨2, "fruit_unripe", none⟩] }

/-- A secondary pair-merger input with one flower annotation whose
`category_id` the merge rewrites in place in the loaded source list. -/
def c9flower : PairData :=
  { info := none, licenses := none,
    images := [⟨1, "f.jpg", none, none, none⟩],
    annotations := [⟨1, 1, 7, none, [], none, none, none, none⟩],
    categories := [⟨7, "flower", none⟩] }

/-- The post-merge state of `c9flower`'s annotation: `category_id`
rewritten to the fresh flower id 3 = max(1, 2) + 1. -/
def c9mut : Ann := ⟨1, 1, 3, none, [], none, none, none, none⟩

/-- An image present on both sides of a heterogeneous merge (C10). -/
def c10img : Image := ⟨1, "a.jpg", none, none, none⟩

/-- Primary image dict holding `c10img` under its filename. -/
def c10simgs : List (String × Image) := [("a.jpg", c10img)]

/-- Secondary image dict holding a different record under the same
filename. -/
def c10fimgs : List (String × Image) := [("a.jpg", ⟨5, "a.jpg", some 10, none, none⟩)]

/-- Primary per-file dict for the directory combiner. -/
def c10sd : List (String × (Image × List Ann)) := [("a.jpg", (c10img, []))]

/-- Secondary per-file dict for the directory combiner. -/
def c10fd : List (String × (Image × List Ann)) :=
  [("a.jpg", (⟨5, "a.jpg", some 10, none, none⟩, []))]

/-! ## Basic lemmas about the embedding -/

lemma intRange_snoc : ∀ (n : Nat) (c : Int),
    intRange c (n + 1) = intRange c n ++ [c + n] := by
  intro n
  induction n with
  | zero => intro c; simp [intRange]
  | succ n ih =>
      intro c
      have harith : (c + 1) + (n : Int) = c + ((n : Nat) + (1 : Nat) : Nat) := by
        push_cast; ring
      calc intRange c (n + 1 + 1)
          = c :: intRange (c + 1) (n + 1) := rfl
        _ = c :: (intRange (c + 1) n ++ [(c + 1) + n]) := by rw [ih]
        _ = intRange c (n + 1) ++ [c + ((n : Nat) + (1 : Nat) : Nat)] := by
              rw [← harith]; rfl

/-- A fold preserves any invariant its step preserves. -/
lemma foldl_preserve {σ α : Type} (P : σ → Prop) (f : σ → α → σ)
    (hf : ∀ st a, P st → P (f st a)) :
    ∀ (l : List α) (st : σ), P st → P (l.foldl f st) := by
  intro l
  induction l with
  | nil => intro st h; exact h
  | cons a t ih => intro st h; exact ih (f st a) (hf st a h)

lemma process_info_shape (st : MergerState) (d : CocoData) :
    ∃ i, process_info st d = { st with info := i } := by
  unfold process_info
  cases d.info with
  | none => exact ⟨st.info, rfl⟩
  | some i =>
      dsimp only
      split
      · exact ⟨i, rfl⟩
      · exact ⟨st.info, rfl⟩

lemma internLicense_shape (st : MergerState) (l : License) :
    ((alookup (licenseKey l) st.license_map).isSome = true ∧
      internLicense st l = st) ∨
    (alookup (licenseKey l) st.license_map = none ∧
      internLicense st l = { st with
        license_map := (licenseKey l, st.next_license_id) :: st.license_map,
        licenses := st.licenses ++ [{ l with id := st.next_license_id }],
        next_license_id := st.next_license_id + 1 }) := by
  unfold internLicense
  cases h : alookup (licenseKey l) st.license_map with
  | some v => exact Or.inl ⟨rfl, rfl⟩
  | none => exact Or.inr ⟨rfl, rfl⟩

lemma internCategory_shape (st : MergerState) (c : Category) :
    ((alookup (catKey c) st.category_map).isSome = true ∧
      internCategory st c = st) ∨
    (alookup (catKey c) st.category_map = none ∧
      internCategory st c = { st with
        category_map := (catKey c, st.next_category_id) :: st.category_map,
        categories := st.categories ++ [{ c with id := st.next_category_id }],
        next_category_id := st.next_category_id + 1 }) := by
  unfold internCategory
  cases h : alookup (catKey c) st.category_map with
  | some v => exact Or.inl ⟨rfl, rfl⟩
  | none => exact Or.inr ⟨rfl, rfl⟩

lemma process_image_shape (d : CocoData) (st : MergerState) (img : Image) :
    ∃ newImg : Image, newImg.id = st.next_image_id ∧
      process_image d st img = { st with
        image_id_map := (img.id, st.next_image_id) :: st.image_id_map,
        images := st.images ++ [newImg],
        next_image_id := st.next_image_id + 1 } := by
  unfold process_image
  cases himg : img.license with
  | none =>
      exact ⟨{ img with id := st.next_image_id, license := none }, rfl, rfl⟩
  | some oldLic =>
      dsimp only
      cases hf : (d.licenses.getD []).find? (fun l => l.id == oldLic) with
      | none =>
          exact ⟨{ img with id := st.next_image_id, license := some oldLic },
            rfl, rfl⟩
      | some l =>
          dsimp only
          cases ha : alookup (licenseKey l) st.license_map with
          | none =>
              exact ⟨{ img with
                id := st.next_image_id, license := some oldLic }, rfl, rfl⟩
          | some nid =>
              exact ⟨{ img with
                id := st.next_image_id, license := some nid }, rfl, rfl⟩

lemma process_ann_of_none (d : CocoData) (st : MergerState) (a : Ann)
    (h : alookup a.image_id st.image_id_map = none) :
    process_ann d st a = st := by
  unfold process_ann; rw [h]

lemma process_ann_of_some (d : CocoData) (st : MergerState) (a : Ann) (j : Int)
    (h : alookup a.image_id st.image_id_map = some j) :
    ∃ cid, process_ann d st a = { st with
      annotations :=
        st.annotations ++ [{ a with
          id := st.next_annotation_id, image_id := j, category_id := cid }],
      next_annotation_id := st.next_annotation_id + 1 } := by
  unfold process_ann; rw [h]
  dsimp only
  cases hf : (d.categories.getD []).find? (fun c => c.id == a.category_id) with
  | none => exact ⟨a.category_id, rfl⟩
  | some c =>
      dsimp only
      cases hl : alookup (catKey c) st.category_map with
      | none => exact ⟨a.category_id, rfl⟩
      | some newCat => exact ⟨newCat, rfl⟩

lemma dense_snoc {α : Type} (f : α → Int) (l : List α) (x : α) (c : Int)
    (h1 : l.map f = intRange 1 l.length) (h2 : c = 1 + (l.length : Int))
    (h3 : f x = c) :
    (l ++ [x]).map f = intRange 1 (l ++ [x]).length ∧
      c + 1 = 1 + (((l ++ [x]).length : Nat) : Int) := by
  constructor
  · simp only [List.map_append, List.length_append, List.map_cons,
      List.map_nil, List.length_cons, List.length_nil, h1, h3, h2]
    rw [intRange_snoc]
  · simp only [List.length_append, List.length_cons, List.length_nil, h2]
    push_cast
    ring

lemma denseState_init : denseState initState := by
  refine ⟨rfl, ?_, rfl, ?_, rfl, ?_, rfl, ?_⟩ <;> simp [initState]

lemma dense_process_info (st : MergerState) (d : CocoData)
    (h : denseState st) : denseState (process_info st d) := by
  obtain ⟨i, hi⟩ := process_info_shape st d
  rw [hi]; exact h

lemma dense_internLicense (st : MergerState) (l : License)
    (h : denseState st) : denseState (internLicense st l) := by
  rcases internLicense_shape st l with ⟨-, h1⟩ | ⟨-, h1⟩ <;> rw [h1]
  · exact h
  · obtain ⟨d1, d2, d3, d4, d5, d6, d7, d8⟩ := h
    have hs := dense_snoc License.id st.licenses
      { l with id := st.next_license_id } st.next_license_id d1 d2 rfl
    exact ⟨hs.1, hs.2, d3, d4, d5, d6, d7, d8⟩

lemma dense_internCategory (st : MergerState) (c : Category)
    (h : denseState st) : denseState (internCategory st c) := by
  rcases internCategory_shape st c with ⟨-, h1⟩ | ⟨-, h1⟩ <;> rw [h1]
  · exact h
  · obtain ⟨d1, d2, d3, d4, d5, d6, d7, d8⟩ := h
    have hs := dense_snoc Category.id st.categories
      { c with id := st.next_category_id } st.next_category_id d3 d4 rfl
    exact ⟨d1, d2, hs.1, hs.2, d5, d6, d7, d8⟩

lemma dense_process_image (d : CocoData) (st : MergerState) (img : Image)
    (h : denseState st) : denseState (process_image d st img) := by
  obtain ⟨w, hw, h1⟩ := process_image_shape d st img
  rw [h1]
  obtain ⟨d1, d2, d3, d4, d5, d6, d7, d8⟩ := h
  have hs := dense_snoc Image.id st.images w st.next_image_id d5 d6 hw
  exact ⟨d1, d2, d3, d4, hs.1, hs.2, d7, d8⟩

lemma dense_process_ann (d : CocoData) (st : MergerState) (a : Ann)
    (h : denseState st) : denseState (process_ann d st a) := by
  cases hl : alookup a.image_id st.image_id_map with
  | none => rw [process_ann_of_none d st a hl]; exact h
  | some j =>
      obtain ⟨cid, h1⟩ := process_ann_of_some d st a j hl
      rw [h1]
      obtain ⟨d1, d2, d3, d4, d5, d6, d7, d8⟩ := h
      have hs := dense_snoc Ann.id st.annotations
        { a with
            id := st.next_annotation_id, image_id := j, category_id := cid }
        st.next_annotation_id d7 d8 rfl
      exact ⟨d1, d2, d3, d4, d5, d6, hs.1, hs.2⟩

lemma dense_process_file (st : MergerState) (d : CocoData)
    (h : denseState st) : denseState (process_file st d) := by
  unfold process_file process_anns process_images process_categories
    process_licenses
  apply foldl_preserve denseState _ (fun st a h => dense_process_ann d st a h)
  apply foldl_preserve denseState _ (fun st a h => dense_process_image d st a h)
  apply foldl_preserve denseState _ (fun st a h => dense_internCategory st a h)
  apply foldl_preserve denseState _ (fun st a h => dense_internLicense st a h)
  exact dense_process_info st d h

lemma dense_process_all_files (ds : List CocoData) :
    denseState (process_all_files ds) :=
  foldl_preserve denseState process_file
    (fun st d h => dense_process_file st d h) ds initState denseState_init

/-- A fold preserves an invariant whose step only works for list members. -/
lemma foldl_preserve_mem {σ α : Type} (P : σ → Prop) (f : σ → α → σ) :
    ∀ (l : List α), (∀ st a, a ∈ l → P st → P (f st a)) →
      ∀ st, P st → P (l.foldl f st) := by
  intro l
  induction l with
  | nil => intro _ st h; exact h
  | cons a t ih =>
      intro hf st h
      exact ih (fun st b hb hst => hf st b (List.mem_cons_of_mem a hb) hst)
        (f st a) (hf st a (List.mem_cons_self a t) h)

lemma alookup_mem {κ β : Type} [DecidableEq κ] (k : κ) (v : β) :
    ∀ m : List (κ × β), alookup k m = some v → (k, v) ∈ m := by
  intro m
  induction m with
  | nil => intro h; simp [alookup] at h
  | cons p t ih =>
      intro h
      by_cases hk : k = p.1
      · rw [show alookup k (p :: t) = if k = p.1 then some p.2 else alookup k t
          from rfl, if_pos hk] at h
        injection h with h2
        cases p
        cases hk
        cases h2
        exact List.mem_cons_self _ _
      · rw [show alookup k (p :: t) = if k = p.1 then some p.2 else alookup k t
          from rfl, if_neg hk] at h
        exact List.mem_cons_of_mem _ (ih h)

lemma ref_initState : refState initState := by
  refine ⟨?_, ?_, ?_, ?_⟩ <;> intro x hx <;> simp [initState] at hx

lemma ref_process_info (st : MergerState) (d : CocoData)
    (h : refState st) : refState (process_info st d) := by
  obtain ⟨i, hi⟩ := process_info_shape st d
  rw [hi]; exact h

lemma ref_internLicense (st : MergerState) (l : License)
    (h : refState st) : refState (internLicense st l) := by
  rcases internLicense_shape st l with ⟨-, h1⟩ | ⟨-, h1⟩ <;> rw [h1] <;> exact h

lemma ref_internCategory (st : MergerState) (c : Category)
    (h : refState st) : refState (internCategory st c) := by
  rcases internCategory_shape st c with ⟨-, h1⟩ | ⟨-, h1⟩ <;> rw [h1]
  · exact h
  · obtain ⟨m1, m2, m3, m4⟩ := h
    refine ⟨m1, ?_, m3, ?_⟩
    · intro p hp
      rcases List.mem_cons.1 hp with rfl | hp'
      · exact ⟨{ c with id := st.next_category_id },
          List.mem_append_right _ (List.mem_singleton.2 rfl), rfl⟩
      · obtain ⟨cat, hc, he⟩ := m2 p hp'
        exact ⟨cat, List.mem_append_left _ hc, he⟩
    · intro a ha
      obtain ⟨cat, hc, he⟩ := m4 a ha
      exact ⟨cat, List.mem_append_left _ hc, he⟩

lemma ref_process_image (d : CocoData) (st : MergerState) (img : Image)
    (h : refState st) : refState (process_image d st img) := by
  obtain ⟨w, hw, h1⟩ := process_image_shape d st img
  rw [h1]
  obtain ⟨m1, m2, m3, m4⟩ := h
  refine ⟨?_, m2, ?_, m4⟩
  · intro p hp
    rcases List.mem_cons.1 hp with rfl | hp'
    · exact ⟨w, List.mem_append_right _ (List.mem_singleton.2 rfl), hw⟩
    · obtain ⟨i, hi, he⟩ := m1 p hp'
      exact ⟨i, List.mem_append_left _ hi, he⟩
  · intro a ha
    obtain ⟨i, hi, he⟩ := m3 a ha
    exact ⟨i, List.mem_append_left _ hi, he⟩

lemma ref_process_ann (d : CocoData) (st : MergerState) (a : Ann)
    (hkeys : ∀ c ∈ d.categories.getD [],
      (alookup (catKey c) st.category_map).isSome = true)
    (hcat : ∃ c ∈ d.categories.getD [], c.id = a.category_id)
    (h : refState st) : refState (process_ann d st a) := by
  cases him : alookup a.image_id st.image_id_map with
  | none => rw [process_ann_of_none d st a him]; exact h
  | some j =>
      obtain ⟨c0, hc0mem, hc0id⟩ := hcat
      have hfindSome :
          ((d.categories.getD []).find?
            (fun c => c.id == a.category_id)).isSome = true := by
        rw [List.find?_isSome]
        exact ⟨c0, hc0mem, by simp [hc0id]⟩
      obtain ⟨c1, hfind⟩ := Option.isSome_iff_exists.1 hfindSome
      have hc1mem := List.mem_of_find?_eq_some hfind
      obtain ⟨cid, hcid⟩ := Option.isSome_iff_exists.1 (hkeys c1 hc1mem)
      unfold process_ann
      rw [him]
      dsimp only
      rw [hfind]
      dsimp only
      rw [hcid]
      dsimp only
      obtain ⟨m1, m2, m3, m4⟩ := h
      refine ⟨m1, m2, ?_, ?_⟩
      · intro x hx
        rcases List.mem_append.1 hx with hx | hx
        · exact m3 x hx
        · rw [List.mem_singleton.1 hx]
          exact m1 (a.image_id, j) (alookup_mem _ _ _ him)
      · intro x hx
        rcases List.mem_append.1 hx with hx | hx
        · exact m4 x hx
        · rw [List.mem_singleton.1 hx]
          exact m2 (catKey c1, cid) (alookup_mem _ _ _ hcid)

lemma catfields_process_image (d : CocoData) (st : MergerState) (img : Image) :
    (process_image d st img).category_map = st.category_map ∧
    (process_image d st img).categories = st.categories := by
  obtain ⟨w, hw, h1⟩ := process_image_shape d st img
  rw [h1]; exact ⟨rfl, rfl⟩

lemma catfields_process_images (st : MergerState) (d : CocoData) :
    (process_images st d).category_map = st.category_map ∧
    (process_images st d).categories = st.categories := by
  unfold process_images
  apply foldl_preserve
    (fun s => s.category_map = st.category_map ∧ s.categories = st.categories)
    (process_image d)
  · intro s img hs
    obtain ⟨hm', hc'⟩ := catfields_process_image d s img
    exact ⟨hm'.trans hs.1, hc'.trans hs.2⟩
  · exact ⟨rfl, rfl⟩

lemma catfields_process_ann (d : CocoData) (st : MergerState) (a : Ann) :
    (process_ann d st a).category_map = st.category_map ∧
    (process_ann d st a).categories = st.categories := by
  cases him : alookup a.image_id st.image_id_map with
  | none => rw [process_ann_of_none d st a him]; exact ⟨rfl, rfl⟩
  | some j =>
      obtain ⟨cid, h1⟩ := process_ann_of_some d st a j him
      rw [h1]; exact ⟨rfl, rfl⟩

lemma alookup_isSome_internCategory (st : MergerState) (c : Category)
    (k : String × String)
    (h : (alookup k st.category_map).isSome = true) :
    (alookup k (internCategory st c).category_map).isSome = true := by
  rcases internCategory_shape st c with ⟨-, h1⟩ | ⟨-, h1⟩ <;> rw [h1]
  · exact h
  · by_cases hk : k = catKey c <;> simp [alookup, hk, h]

lemma key_after_internCategory (st : MergerState) (c : Category) :
    (alookup (catKey c) (internCategory st c).category_map).isSome = true := by
  rcases internCategory_shape st c with ⟨hs, h1⟩ | ⟨-, h1⟩ <;> rw [h1]
  · exact hs
  · simp [alookup]

lemma key_after_categories_fold :
    ∀ (l : List Category) (st : MergerState), ∀ c ∈ l,
      (alookup (catKey c) ((l.foldl internCategory st).category_map)).isSome
        = true := by
  intro l
  induction l with
  | nil => intro st c hc; simp at hc
  | cons c0 t ih =>
      intro st c hc
      rcases List.mem_cons.1 hc with rfl | hc'
      · show (alookup (catKey c)
          ((t.foldl internCategory (internCategory st c)).category_map)).isSome
            = true
        apply foldl_preserve
          (fun s => (alookup (catKey c) s.category_map).isSome = true)
          internCategory
          (fun s c' hs => alookup_isSome_internCategory s c' (catKey c) hs)
        exact key_after_internCategory st c
      · exact ih (internCategory st c0) c hc'

lemma ref_process_file (st : MergerState) (d : CocoData)
    (hd : ∀ a ∈ d.annotations.getD [],
      ∃ c ∈ d.categories.getD [], c.id = a.category_id)
    (h : refState st) : refState (process_file st d) := by
  have hfile : process_file st d = process_anns (stBeforeAnns st d) d := rfl
  rw [hfile]
  have h1 : refState (stBeforeAnns st d) := by
    unfold stBeforeAnns process_images
    apply foldl_preserve refState _ (fun s img hs => ref_process_image d s img hs)
    unfold process_categories
    apply foldl_preserve refState _ (fun s c hs => ref_internCategory s c hs)
    unfold process_licenses
    apply foldl_preserve refState _ (fun s l hs => ref_internLicense s l hs)
    exact ref_process_info st d h
  have hkeys : ∀ c ∈ d.categories.getD [],
      (alookup (catKey c) (stBeforeAnns st d).category_map).isSome = true := by
    intro c hc
    have hmap := (catfields_process_images
      (process_categories (process_licenses (process_info st d) d) d) d).1
    show (alookup (catKey c) (process_images
      (process_categories (process_licenses (process_info st d) d) d) d
        ).category_map).isSome = true
    rw [hmap]
    exact key_after_categories_fold (d.categories.getD [])
      (process_licenses (process_info st d) d) c hc
  unfold process_anns
  have hrun := foldl_preserve_mem
    (fun s => refState s ∧ s.category_map = (stBeforeAnns st d).category_map)
    (process_ann d) (d.annotations.getD [])
    (fun s a ha hs => by
      refine ⟨ref_process_ann d s a ?_ (hd a ha) hs.1, ?_⟩
      · intro c hc; rw [hs.2]; exact hkeys c hc
      · rw [(catfields_process_ann d s a).1]; exact hs.2)
    (stBeforeAnns st d) ⟨h1, rfl⟩
  exact hrun.1

lemma ref_process_all_files (ds : List CocoData)
    (hds : ∀ d ∈ ds, ∀ a ∈ d.annotations.getD [],
      ∃ c ∈ d.categories.getD [], c.id = a.category_id) :
    refState (process_all_files ds) := by
  unfold process_all_files
  exact foldl_preserve_mem refState process_file ds
    (fun st d hd hst => ref_process_file st d (hds d hd) hst)
    initState ref_initState

lemma dropEmpty_getD {α : Type} (l : List α) : (dropEmpty l).getD [] = l := by
  cases l <;> simp [dropEmpty]

lemma imap_process_info (st : MergerState) (d : CocoData) :
    (process_info st d).image_id_map = st.image_id_map := by
  obtain ⟨i, hi⟩ := process_info_shape st d; rw [hi]

lemma imap_internLicense (st : MergerState) (l : License) :
    (internLicense st l).image_id_map = st.image_id_map := by
  rcases internLicense_shape st l with ⟨-, h1⟩ | ⟨-, h1⟩ <;> rw [h1]

lemma imap_internCategory (st : MergerState) (c : Category) :
    (internCategory st c).image_id_map = st.image_id_map := by
  rcases internCategory_shape st c with ⟨-, h1⟩ | ⟨-, h1⟩ <;> rw [h1]

lemma imap_process_licenses (st : MergerState) (d : CocoData) :
    (process_licenses st d).image_id_map = st.image_id_map := by
  unfold process_licenses
  apply foldl_preserve (fun s => s.image_id_map = st.image_id_map) internLicense
  · intro s l hs; rw [imap_internLicense]; exact hs
  · rfl

lemma imap_process_categories (st : MergerState) (d : CocoData) :
    (process_categories st d).image_id_map = st.image_id_map := by
  unfold process_categories
  apply foldl_preserve (fun s => s.image_id_map = st.image_id_map) internCategory
  · intro s c hs; rw [imap_internCategory]; exact hs
  · rfl

lemma imap_process_ann (d : CocoData) (st : MergerState) (a : Ann) :
    (process_ann d st a).image_id_map = st.image_id_map := by
  cases him : alookup a.image_id st.image_id_map with
  | none => rw [process_ann_of_none d st a him]
  | some j => obtain ⟨cid, h1⟩ := process_ann_of_some d st a j him; rw [h1]

lemma imap_process_anns (st : MergerState) (d : CocoData) :
    (process_anns st d).image_id_map = st.image_id_map := by
  unfold process_anns
  apply foldl_preserve (fun s => s.image_id_map = st.image_id_map)
    (process_ann d)
  · intro s a hs; rw [imap_process_ann]; exact hs
  · rfl

lemma imap_keys_images_fold (d : CocoData) :
    ∀ (l : List Image) (st : MergerState) (k : Int),
      (alookup k ((l.foldl (process_image d) st).image_id_map)).isSome = true ↔
        (k ∈ l.map Image.id ∨ (alookup k st.image_id_map).isSome = true) := by
  intro l
  induction l with
  | nil => intro st k; simp
  | cons img t ih =>
      intro st k
      rw [List.foldl_cons, ih]
      obtain ⟨w, hw, h1⟩ := process_image_shape d st img
      rw [h1]
      show (k ∈ List.map Image.id t ∨
          (alookup k ((img.id, st.next_image_id) :: st.image_id_map)).isSome
            = true) ↔
        (k ∈ List.map Image.id (img :: t) ∨
          (alookup k st.image_id_map).isSome = true)
      by_cases hk : k = img.id
      · simp [alookup, hk]
      · simp [alookup, hk]

lemma imap_keys_process_file (st : MergerState) (d : CocoData) (k : Int) :
    (alookup k ((process_file st d).image_id_map)).isSome = true ↔
      (k ∈ (d.images.getD []).map Image.id ∨
        (alookup k st.image_id_map).isSome = true) := by
  show (alookup k ((process_anns (stBeforeAnns st d) d).image_id_map)).isSome
      = true ↔ _
  rw [imap_process_anns]
  unfold stBeforeAnns process_images
  rw [imap_keys_images_fold, imap_process_categories, imap_process_licenses,
    imap_process_info]

lemma oldImageIds_cons (d : CocoData) (t : List CocoData) :
    oldImageIds (d :: t) = (d.images.getD []).map Image.id ++ oldImageIds t :=
  rfl

lemma imap_keys_files_fold (k : Int) :
    ∀ (ds : List CocoData) (st : MergerState),
      (alookup k ((ds.foldl process_file st).image_id_map)).isSome = true ↔
        (k ∈ oldImageIds ds ∨ (alookup k st.image_id_map).isSome = true) := by
  intro ds
  induction ds with
  | nil => intro st; simp [oldImageIds]
  | cons d t ih =>
      intro st
      rw [List.foldl_cons, ih, imap_keys_process_file, oldImageIds_cons]
      simp only [List.mem_append]
      tauto

lemma imap_keys_all (ds : List CocoData) (k : Int) :
    (alookup k ((process_all_files ds).image_id_map)).isSome = true ↔
      k ∈ oldImageIds ds := by
  unfold process_all_files
  rw [imap_keys_files_fold]
  simp [initState, alookup]

lemma oldImageIds_append (l1 l2 : List CocoData) :
    oldImageIds (l1 ++ l2) = oldImageIds l1 ++ oldImageIds l2 := by
  induction l1 with
  | nil => rfl
  | cons d t ih => simp only [List.cons_append, oldImageIds_cons, ih,
      List.append_assoc]

lemma foldl_process_file_append (l1 l2 : List CocoData) (st : MergerState) :
    (l1 ++ l2).foldl process_file st = l2.foldl process_file (l1.foldl process_file st) :=
  List.foldl_append _ _ _ _

lemma intRange_length : ∀ (n : Nat) (c : Int), (intRange c n).length = n := by
  intro n
  induction n with
  | zero => intro c; rfl
  | succ n ih => intro c; show (intRange (c + 1) n).length + 1 = n + 1
                 rw [ih]

lemma intRange_append : ∀ (m n : Nat) (c : Int),
    intRange c (n + m) = intRange c n ++ intRange (c + n) m := by
  intro m
  induction m with
  | zero => intro n c; simp [intRange]
  | succ m ih =>
      intro n c
      have h1 : n + (m + 1) = (n + m) + 1 := rfl
      rw [h1, intRange_snoc, ih, intRange_snoc, List.append_assoc]
      have h2 : c + ((n + m : Nat) : Int) = (c + n) + m := by push_cast; ring
      rw [h2]

lemma stampAnns_ids (imgId : Int) : ∀ (l : List Ann) (c : Int),
    (stampAnns imgId c l).1.map Ann.id = intRange c l.length ∧
    (stampAnns imgId c l).2 = c + (l.length : Int) := by
  intro l
  induction l with
  | nil =>
      intro c
      refine ⟨rfl, ?_⟩
      show c = c + ((List.length ([] : List Ann) : Nat) : Int)
      simp
  | cons a t ih =>
      intro c
      obtain ⟨h1, h2⟩ := ih (c + 1)
      constructor
      · have hc : (stampAnns imgId c (a :: t)).1 =
            { a with image_id := imgId, id := c } ::
              (stampAnns imgId (c + 1) t).1 := rfl
        rw [hc, List.map_cons, h1]
        rfl
      · have hc : (stampAnns imgId c (a :: t)).2 =
            (stampAnns imgId (c + 1) t).2 := rfl
        rw [hc, h2]
        simp only [List.length_cons]
        push_cast
        ring

lemma stampAnns_length (imgId c : Int) (l : List Ann) :
    (stampAnns imgId c l).1.length = l.length := by
  have h := (stampAnns_ids imgId l c).1
  have := congrArg List.length h
  rwa [List.length_map, intRange_length] at this

lemma merge_img_fold_dense (sImgs fImgs : List (String × Image)) :
    ∀ (names : List String) (acc : List (String × Image) × Int),
      acc.1.map (fun p => p.2.id) = intRange 1 acc.1.length →
      acc.2 = 1 + (acc.1.length : Int) →
      ((names.foldl (merge_img_step sImgs fImgs) acc).1.map (fun p => p.2.id) =
        intRange 1 (names.foldl (merge_img_step sImgs fImgs) acc).1.length) ∧
      (names.foldl (merge_img_step sImgs fImgs) acc).2 =
        1 + ((names.foldl (merge_img_step sImgs fImgs) acc).1.length : Int) := by
  intro names
  induction names with
  | nil => intro acc h1 h2; exact ⟨h1, h2⟩
  | cons fn t ih =>
      intro acc h1 h2
      rw [List.foldl_cons]
      have hstep :
          (merge_img_step sImgs fImgs acc fn).1.map (fun p => p.2.id) =
            intRange 1 (merge_img_step sImgs fImgs acc fn).1.length ∧
          (merge_img_step sImgs fImgs acc fn).2 =
            1 + ((merge_img_step sImgs fImgs acc fn).1.length : Int) := by
        unfold merge_img_step
        cases ho : (pyGet sImgs fn).or (pyGet fImgs fn) with
        | none => exact ⟨h1, h2⟩
        | some img =>
            dsimp only
            exact dense_snoc (fun p => p.2.id) acc.1
              (fn, { img with id := acc.2 }) acc.2 h1 h2 rfl
      exact ih _ hstep.1 hstep.2

lemma merge_ann_fold_dense (sAnns fAnns : List (String × Ann)) :
    ∀ (m : List (String × Image)) (acc : List Ann × Int),
      acc.1.map Ann.id = intRange 1 acc.1.length →
      acc.2 = 1 + (acc.1.length : Int) →
      ((m.foldl (merge_ann_step sAnns fAnns) acc).1.map Ann.id =
        intRange 1 (m.foldl (merge_ann_step sAnns fAnns) acc).1.length) ∧
      (m.foldl (merge_ann_step sAnns fAnns) acc).2 =
        1 + ((m.foldl (merge_ann_step sAnns fAnns) acc).1.length : Int) := by
  intro m
  induction m with
  | nil => intro acc h1 h2; exact ⟨h1, h2⟩
  | cons p t ih =>
      intro acc h1 h2
      rw [List.foldl_cons]
      have hstep :
          (merge_ann_step sAnns fAnns acc p).1.map Ann.id =
            intRange 1 (merge_ann_step sAnns fAnns acc p).1.length ∧
          (merge_ann_step sAnns fAnns acc p).2 =
            1 + ((merge_ann_step sAnns fAnns acc p).1.length : Int) := by
        unfold merge_ann_step
        obtain ⟨hs1, hs2⟩ := stampAnns_ids p.2.id
          (groupGet sAnns p.1 ++ groupGet fAnns p.1) acc.2
        have hlen := stampAnns_length p.2.id acc.2
          (groupGet sAnns p.1 ++ groupGet fAnns p.1)
        dsimp only
        constructor
        · rw [List.map_append, h1, hs1]
          conv_rhs => rw [List.length_append, hlen, intRange_append]
          rw [h2]
        · rw [hs2]
          conv_rhs => rw [List.length_append, hlen]
          rw [h2]
          push_cast
          ring
      exact ih _ hstep.1 hstep.2

lemma combine_fold_dense (sd fd : List (String × (Image × List Ann))) :
    ∀ (names : List String) (acc : List Image × List Ann × Int × Int),
      acc.1.map Image.id = intRange 1 acc.1.length →
      acc.2.2.1 = 1 + (acc.1.length : Int) →
      acc.2.1.map Ann.id = intRange 1 acc.2.1.length →
      acc.2.2.2 = 1 + (acc.2.1.length : Int) →
      ((names.foldl (combine_step sd fd) acc).1.map Image.id =
        intRange 1 (names.foldl (combine_step sd fd) acc).1.length) ∧
      ((names.foldl (combine_step sd fd) acc).2.1.map Ann.id =
        intRange 1 (names.foldl (combine_step sd fd) acc).2.1.length) := by
  intro names
  induction names with
  | nil => intro acc h1 h2 h3 h4; exact ⟨h1, h3⟩
  | cons fn t ih =>
      intro acc h1 h2 h3 h4
      rw [List.foldl_cons]
      have hstep :
          (combine_step sd fd acc fn).1.map Image.id =
            intRange 1 (combine_step sd fd acc fn).1.length ∧
          (combine_step sd fd acc fn).2.2.1 =
            1 + ((combine_step sd fd acc fn).1.length : Int) ∧
          (combine_step sd fd acc fn).2.1.map Ann.id =
            intRange 1 (combine_step sd fd acc fn).2.1.length ∧
          (combine_step sd fd acc fn).2.2.2 =
            1 + ((combine_step sd fd acc fn).2.1.length : Int) := by
        unfold combine_step
        cases ho : (pyGet sd fn).or (pyGet fd fn) with
        | none => exact ⟨h1, h2, h3, h4⟩
        | some pr =>
            dsimp only
            set blk := ((pyGet sd fn).map (fun q => q.2)).getD [] ++
              ((pyGet fd fn).map (fun q => q.2)).getD [] with hblk
            obtain ⟨hs1, hs2⟩ := stampAnns_ids acc.2.2.1 blk acc.2.2.2
            have hlen := stampAnns_length acc.2.2.1 acc.2.2.2 blk
            have himg := dense_snoc Image.id acc.1
              { pr.1 with id := acc.2.2.1 } acc.2.2.1 h1 h2 rfl
            refine ⟨himg.1, himg.2, ?_, ?_⟩
            · rw [List.map_append, h3, hs1]
              conv_rhs => rw [List.length_append, hlen, intRange_append]
              rw [h4]
            · rw [hs2]
              conv_rhs => rw [List.length_append, hlen]
              rw [h4]
              push_cast
              ring
      exact ih _ hstep.1 hstep.2.1 hstep.2.2.1 hstep.2.2.2

lemma cleanStep_eq_some (a₀ a : Ann) :
    cleanStep a₀ = some a ↔
      validBBox a₀.bbox = true ∧ a = { a₀ with segmentation := [] } := by
  cases hv : validBBox a₀.bbox <;>
    simp [cleanStep, hv, eq_comm]

lemma cleanStep_idem (a₀ a : Ann) (h : cleanStep a₀ = some a) :
    cleanStep a = some a := by
  rcases (cleanStep_eq_some a₀ a).1 h with ⟨hv, rfl⟩
  exact (cleanStep_eq_some _ _).2 ⟨hv, rfl⟩

lemma pyGet_cons {κ β : Type} [DecidableEq κ] (p : κ × β) (t : List (κ × β))
    (k : κ) : pyGet (p :: t) k = if p.1 = k then some p.2 else pyGet t k :=
  rfl

lemma pyGet_append_left {κ β : Type} [DecidableEq κ] (l l' : List (κ × β))
    (k : κ) (v : β) (h : pyGet l k = some v) : pyGet (l ++ l') k = some v := by
  induction l with
  | nil => simp [pyGet] at h
  | cons p t ih =>
      rw [List.cons_append, pyGet_cons]
      rw [pyGet_cons] at h
      by_cases hk : p.1 = k
      · rw [if_pos hk] at h ⊢; exact h
      · rw [if_neg hk] at h ⊢; exact ih h

lemma pyGet_append_single_ne {κ β : Type} [DecidableEq κ] (l : List (κ × β))
    (k' k : κ) (v : β) (h : k' ≠ k) :
    pyGet (l ++ [(k', v)]) k = pyGet l k := by
  induction l with
  | nil => simp [pyGet, h]
  | cons p t ih =>
      rw [List.cons_append, pyGet_cons, pyGet_cons]
      by_cases hk : p.1 = k
      · rw [if_pos hk, if_pos hk]
      · rw [if_neg hk, if_neg hk]; exact ih

lemma pyGet_append_last {κ β : Type} [DecidableEq κ] (l : List (κ × β))
    (k : κ) (v : β) (h : pyGet l k = none) :
    pyGet (l ++ [(k, v)]) k = some v := by
  induction l with
  | nil => simp [pyGet]
  | cons p t ih =>
      rw [pyGet_cons] at h
      rw [List.cons_append, pyGet_cons]
      by_cases hk : p.1 = k
      · rw [if_pos hk] at h; exact absurd h (by simp)
      · rw [if_neg hk] at h ⊢; exact ih h

lemma pyGet_some_mem_keys {κ β : Type} [DecidableEq κ] (l : List (κ × β))
    (k : κ) (v : β) (h : pyGet l k = some v) : k ∈ l.map Prod.fst := by
  induction l with
  | nil => simp [pyGet] at h
  | cons p t ih =>
      rw [pyGet_cons] at h
      by_cases hk : p.1 = k
      · exact List.mem_cons.2 (Or.inl hk.symm)
      · rw [if_neg hk] at h
        exact List.mem_cons_of_mem _ (ih h)

lemma merge_img_fold_stable_get (sImgs fImgs : List (String × Image)) :
    ∀ (names : List String) (acc : List (String × Image) × Int)
      (fn : String) (v : Image),
      pyGet acc.1 fn = some v →
      pyGet ((names.foldl (merge_img_step sImgs fImgs) acc).1) fn = some v := by
  intro names
  induction names with
  | nil => intro acc fn v h; exact h
  | cons n0 t ih =>
      intro acc fn v h
      rw [List.foldl_cons]
      apply ih
      unfold merge_img_step
      cases ho : (pyGet sImgs n0).or (pyGet fImgs n0) with
      | none => exact h
      | some img => exact pyGet_append_left _ _ _ _ h

lemma merged_lookup_fold (sImgs fImgs : List (String × Image)) :
    ∀ (names : List String) (acc : List (String × Image) × Int)
      (fn : String) (img : Image),
      fn ∈ names → pyGet sImgs fn = some img → pyGet acc.1 fn = none →
      ∃ i, pyGet ((names.foldl (merge_img_step sImgs fImgs) acc).1) fn =
        some { img with id := i } := by
  intro names
  induction names with
  | nil => intro acc fn img hmem; simp at hmem
  | cons n0 t ih =>
      intro acc fn img hmem hs hnone
      rw [List.foldl_cons]
      by_cases h0 : n0 = fn
      · subst h0
        have hstep : pyGet ((merge_img_step sImgs fImgs acc n0).1) n0 =
            some { img with id := acc.2 } := by
          unfold merge_img_step
          rw [show (pyGet sImgs n0).or (pyGet fImgs n0) = some img from
            by rw [hs]; rfl]
          exact pyGet_append_last acc.1 n0 { img with id := acc.2 } hnone
        exact ⟨acc.2, merge_img_fold_stable_get sImgs fImgs t _ n0 _ hstep⟩
      · have hmem' : fn ∈ t := by
          rcases List.mem_cons.1 hmem with h | h
          · exact absurd h.symm h0
          · exact h
        apply ih _ fn img hmem' hs
        unfold merge_img_step
        cases ho : (pyGet sImgs n0).or (pyGet fImgs n0) with
        | none => exact hnone
        | some img0 =>
            dsimp only
            rw [pyGet_append_single_ne acc.1 n0 fn _ h0]
            exact hnone

lemma combine_fold_mem (sd fd : List (String × (Image × List Ann))) :
    ∀ (names : List String) (acc : List Image × List Ann × Int × Int)
      (x : Image), x ∈ acc.1 →
      x ∈ (names.foldl (combine_step sd fd) acc).1 := by
  intro names
  induction names with
  | nil => intro acc x h; exact h
  | cons n0 t ih =>
      intro acc x h
      rw [List.foldl_cons]
      apply ih
      unfold combine_step
      cases ho : (pyGet sd n0).or (pyGet fd n0) with
      | none => exact h
      | some pr => exact List.mem_append_left _ h

lemma combine_fold_contains (sd fd : List (String × (Image × List Ann))) :
    ∀ (names : List String) (acc : List Image × List Ann × Int × Int)
      (name : String) (pr : Image × List Ann),
      name ∈ names → pyGet sd name = some pr →
      ∃ i, { pr.1 with id := i } ∈ (names.foldl (combine_step sd fd) acc).1 := by
  intro names
  induction names with
  | nil => intro acc name pr hmem; simp at hmem
  | cons n0 t ih =>
      intro acc name pr hmem hs
      rw [List.foldl_cons]
      by_cases h0 : n0 = name
      · subst h0
        have hx : { pr.1 with id := acc.2.2.1 } ∈
            (combine_step sd fd acc n0).1 := by
          unfold combine_step
          rw [show (pyGet sd n0).or (pyGet fd n0) = some pr from
            by rw [hs]; rfl]
          exact List.mem_append_right _ (List.mem_singleton.2 rfl)
        exact ⟨acc.2.2.1, combine_fold_mem sd fd t _ _ hx⟩
      · have hmem' : name ∈ t := by
          rcases List.mem_cons.1 hmem with h | h
          · exact absurd h.symm h0
          · exact h
        exact ih _ name pr hmem' hs

lemma mem_unionKeys_left {β γ : Type} (d1 : List (String × β))
    (d2 : List (String × γ)) (k : String) (h : k ∈ d1.map Prod.fst) :
    k ∈ unionKeys d1 d2 := by
  unfold unionKeys
  rw [List.mem_dedup]
  exact List.mem_append_left _ h

lemma internCategory_seen (st : MergerState) (c : Category)
    (h : (alookup (catKey c) st.category_map).isSome = true) :
    internCategory st c = st := by
  unfold internCategory
  cases h2 : alookup (catKey c) st.category_map with
  | some v => rfl
  | none => rw [h2] at h; exact absurd h (by simp)

lemma categories_fold_seen :
    ∀ (l : List Category) (st : MergerState),
      (∀ c ∈ l, (alookup (catKey c) st.category_map).isSome = true) →
      l.foldl internCategory st = st := by
  intro l
  induction l with
  | nil => intro st _; rfl
  | cons c t ih =>
      intro st hk
      rw [List.foldl_cons, internCategory_seen st c (hk c (List.mem_cons_self c t))]
      exact ih st (fun c' hc' => hk c' (List.mem_cons_of_mem c hc'))

lemma catfields_process_info (st : MergerState) (d : CocoData) :
    (process_info st d).category_map = st.category_map ∧
    (process_info st d).categories = st.categories := by
  obtain ⟨i, hi⟩ := process_info_shape st d
  rw [hi]; exact ⟨rfl, rfl⟩

lemma catfields_internLicense (st : MergerState) (l : License) :
    (internLicense st l).category_map = st.category_map ∧
    (internLicense st l).categories = st.categories := by
  rcases internLicense_shape st l with ⟨-, h1⟩ | ⟨-, h1⟩ <;> rw [h1] <;>
    exact ⟨rfl, rfl⟩

lemma catfields_process_licenses (st : MergerState) (d : CocoData) :
    (process_licenses st d).category_map = st.category_map ∧
    (process_licenses st d).categories = st.categories := by
  unfold process_licenses
  apply foldl_preserve
    (fun s => s.category_map = st.category_map ∧ s.categories = st.categories)
    internLicense
  · intro s l hs
    obtain ⟨hm, hc⟩ := catfields_internLicense s l
    exact ⟨hm.trans hs.1, hc.trans hs.2⟩
  · exact ⟨rfl, rfl⟩

lemma catfields_process_anns (st : MergerState) (d : CocoData) :
    (process_anns st d).category_map = st.category_map ∧
    (process_anns st d).categories = st.categories := by
  unfold process_anns
  apply foldl_preserve
    (fun s => s.category_map = st.category_map ∧ s.categories = st.categories)
    (process_ann d)
  · intro s a hs
    obtain ⟨hm, hc⟩ := catfields_process_ann d s a
    exact ⟨hm.trans hs.1, hc.trans hs.2⟩
  · exact ⟨rfl, rfl⟩

/-- After one file is fully processed, every category key of that file is
interned in the category map. -/
lemma keys_after_process_file (st : MergerState) (d : CocoData) :
    ∀ c ∈ d.categories.getD [],
      (alookup (catKey c) (process_file st d).category_map).isSome = true := by
  intro c hc
  show (alookup (catKey c)
    (process_anns (stBeforeAnns st d) d).category_map).isSome = true
  rw [(catfields_process_anns (stBeforeAnns st d) d).1]
  show (alookup (catKey c) (process_images
    (process_categories (process_licenses (process_info st d) d) d) d
      ).category_map).isSome = true
  rw [(catfields_process_images
    (process_categories (process_licenses (process_info st d) d) d) d).1]
  exact key_after_categories_fold (d.categories.getD [])
    (process_licenses (process_info st d) d) c hc

lemma organize_step_cases (imgs : List Image) (valid : List (String × Int))
    (nfi : Option Int) (a : Ann) :
    ((organize_step imgs valid nfi a).2 = none →
      (organize_step imgs valid nfi a).1 = a) ∧
    (∀ fn a', (organize_step imgs valid nfi a).2 = some (fn, a') →
      a' = (organize_step imgs valid nfi a).1) ∧
    ((organize_step imgs valid nfi a).1 = a ∨
      ∃ k, nfi = some k ∧
        (organize_step imgs valid nfi a).1 = { a with category_id := k }) := by
  unfold organize_step
  by_cases h1 : ((pyDict valid).map Prod.snd).contains a.category_id
  · rw [if_pos h1]
    cases hm : pyGet (imageMapOf imgs) a.image_id with
    | none =>
        dsimp only
        exact ⟨fun _ => rfl, ⟨fun fn a' h => Option.noConfusion h, Or.inl rfl⟩⟩
    | some fn0 =>
        dsimp only
        by_cases h2 : fn0 = ""
        · rw [if_pos h2]
          exact ⟨fun _ => rfl, ⟨fun fn a' h => Option.noConfusion h,
            Or.inl rfl⟩⟩
        · rw [if_neg h2]
          dsimp only
          by_cases h3 : (truthyOptInt nfi &&
              a.category_id == (pyGet (pyDict valid) "flower").getD 0) = true
          · rw [if_pos h3]
            refine ⟨fun h => Option.noConfusion h, ⟨fun fn a' h => ?_, ?_⟩⟩
            · injection h with h'
              exact (congrArg Prod.snd h').symm
            · right
              have htr : truthyOptInt nfi = true := by
                simp only [Bool.and_eq_true] at h3
                exact h3.1
              cases nfi with
              | none => exact absurd htr (by simp [truthyOptInt])
              | some k => exact ⟨k, rfl, rfl⟩
          · rw [if_neg h3]
            refine ⟨fun h => Option.noConfusion h, ⟨fun fn a' h => ?_,
              Or.inl rfl⟩⟩
            injection h with h'
            exact (congrArg Prod.snd h').symm
  · rw [if_neg h1]
    exact ⟨fun _ => rfl, ⟨fun fn a' h => Option.noConfusion h, Or.inl rfl⟩⟩

lemma loadStep_fold_error : ∀ (pre post : List (Option CocoData))
    (st : MergerState),
    (pre ++ none :: post).foldlM loadStep st =
      Except.error MergeError.malformedJSON := by
  intro pre
  induction pre with
  | nil => intro post st; rfl
  | cons x t ih =>
      intro post st
      cases x with
      | none => rfl
      | some d => exact ih post (process_file st d)

lemma loadStep_fold_ok : ∀ (ds : List CocoData) (st : MergerState),
    (ds.map some).foldlM loadStep st =
      Except.ok (ds.foldl process_file st) := by
  intro ds
  induction ds with
  | nil => intro st; rfl
  | cons d t ih => intro st; exact ih (process_file st d)

lemma refimg_initState : refStateImg initState := by
  refine ⟨?_, ?_⟩ <;> intro x hx <;> simp [initState] at hx

lemma refimg_process_info (st : MergerState) (d : CocoData)
    (h : refStateImg st) : refStateImg (process_info st d) := by
  obtain ⟨i, hi⟩ := process_info_shape st d
  rw [hi]; exact h

lemma refimg_internLicense (st : MergerState) (l : License)
    (h : refStateImg st) : refStateImg (internLicense st l) := by
  rcases internLicense_shape st l with ⟨-, h1⟩ | ⟨-, h1⟩ <;> rw [h1] <;> exact h

lemma refimg_internCategory (st : MergerState) (c : Category)
    (h : refStateImg st) : refStateImg (internCategory st c) := by
  rcases internCategory_shape st c with ⟨-, h1⟩ | ⟨-, h1⟩ <;> rw [h1] <;>
    exact h

lemma refimg_process_image (d : CocoData) (st : MergerState) (img : Image)
    (h : refStateImg st) : refStateImg (process_image d st img) := by
  obtain ⟨w, hw, h1⟩ := process_image_shape d st img
  rw [h1]
  obtain ⟨m1, m3⟩ := h
  constructor
  · intro p hp
    rcases List.mem_cons.1 hp with rfl | hp'
    · exact ⟨w, List.mem_append_right _ (List.mem_singleton.2 rfl), hw⟩
    · obtain ⟨i, hi, he⟩ := m1 p hp'
      exact ⟨i, List.mem_append_left _ hi, he⟩
  · intro a ha
    obtain ⟨i, hi, he⟩ := m3 a ha
    exact ⟨i, List.mem_append_left _ hi, he⟩

lemma refimg_process_ann (d : CocoData) (st : MergerState) (a : Ann)
    (h : refStateImg st) : refStateImg (process_ann d st a) := by
  cases him : alookup a.image_id st.image_id_map with
  | none => rw [process_ann_of_none d st a him]; exact h
  | some j =>
      obtain ⟨cid, h1⟩ := process_ann_of_some d st a j him
      rw [h1]
      obtain ⟨m1, m3⟩ := h
      refine ⟨m1, ?_⟩
      intro x hx
      rcases List.mem_append.1 hx with hx | hx
      · exact m3 x hx
      · rw [List.mem_singleton.1 hx]
        exact m1 (a.image_id, j) (alookup_mem _ _ _ him)

lemma refimg_process_file (st : MergerState) (d : CocoData)
    (h : refStateImg st) : refStateImg (process_file st d) := by
  unfold process_file process_anns process_images process_categories
    process_licenses
  apply foldl_preserve refStateImg _ (fun s a hs => refimg_process_ann d s a hs)
  apply foldl_preserve refStateImg _
    (fun s a hs => refimg_process_image d s a hs)
  apply foldl_preserve refStateImg _ (fun s a hs => refimg_internCategory s a hs)
  apply foldl_preserve refStateImg _ (fun s a hs => refimg_internLicense s a hs)
  exact refimg_process_info st d h

lemma refimg_process_all_files (ds : List CocoData) :
    refStateImg (process_all_files ds) :=
  foldl_preserve refStateImg process_file
    (fun st d h => refimg_process_file st d h) ds initState refimg_initState

lemma stampAnns_image_id (imgId : Int) : ∀ (l : List Ann) (c : Int)
    (a : Ann), a ∈ (stampAnns imgId c l).1 → a.image_id = imgId := by
  intro l
  induction l with
  | nil => intro c a ha; simp [stampAnns] at ha
  | cons hd t ih =>
      intro c a ha
      have hc : (stampAnns imgId c (hd :: t)).1 =
          { hd with image_id := imgId, id := c } ::
            (stampAnns imgId (c + 1) t).1 := rfl
      rw [hc] at ha
      rcases List.mem_cons.1 ha with rfl | ha'
      · rfl
      · exact ih (c + 1) a ha'

lemma merge_ann_fold_imgref (sAnns fAnns : List (String × Ann))
    (m0 : List (String × Image)) :
    ∀ (m : List (String × Image)) (acc : List Ann × Int),
      (∀ p ∈ m, p ∈ m0) →
      (∀ a ∈ acc.1, ∃ img ∈ m0.map Prod.snd, img.id = a.image_id) →
      ∀ a ∈ (m.foldl (merge_ann_step sAnns fAnns) acc).1,
        ∃ img ∈ m0.map Prod.snd, img.id = a.image_id := by
  intro m
  induction m with
  | nil => intro acc _ hacc a ha; exact hacc a ha
  | cons p t ih =>
      intro acc hsub hacc a ha
      rw [List.foldl_cons] at ha
      refine ih _ (fun q hq => hsub q (List.mem_cons_of_mem p hq)) ?_ a ha
      intro x hx
      have hx' : x ∈ acc.1 ++
          (stampAnns p.2.id acc.2 (groupGet sAnns p.1 ++ groupGet fAnns p.1)).1 :=
        hx
      rcases List.mem_append.1 hx' with hx2 | hx2
      · exact hacc x hx2
      · have hid := stampAnns_image_id p.2.id _ acc.2 x hx2
        exact ⟨p.2, List.mem_map.2 ⟨p, hsub p (List.mem_cons_self p t), rfl⟩,
          hid.symm⟩

lemma combine_fold_imgref (sd fd : List (String × (Image × List Ann))) :
    ∀ (names : List String) (acc : List Image × List Ann × Int × Int),
      (∀ a ∈ acc.2.1, ∃ img ∈ acc.1, img.id = a.image_id) →
      ∀ a ∈ (names.foldl (combine_step sd fd) acc).2.1,
        ∃ img ∈ (names.foldl (combine_step sd fd) acc).1,
          img.id = a.image_id := by
  intro names
  induction names with
  | nil => intro acc hacc a ha; exact hacc a ha
  | cons n0 t ih =>
      intro acc hacc
      rw [List.foldl_cons]
      apply ih
      intro x hx
      unfold combine_step at hx ⊢
      revert hx
      cases ho : (pyGet sd n0).or (pyGet fd n0) with
      | none => intro hx; exact hacc x hx
      | some pr =>
          intro hx
          dsimp only at hx ⊢
          rcases List.mem_append.1 hx with hx2 | hx2
          · obtain ⟨img, hi, he⟩ := hacc x hx2
            exact ⟨img, List.mem_append_left _ hi, he⟩
          · have hid := stampAnns_image_id acc.2.2.1 _ acc.2.2.2 x hx2
            exact ⟨{ pr.1 with id := acc.2.2.1 },
              List.mem_append_right _ (List.mem_singleton.2 rfl), hid.symm⟩

/-- C7: for every input dataset, the normalizer's cleaning pass gives
every surviving record an empty `segmentation`, and a record survives
exactly when it is (a source record with `segmentation` cleared whose)
`bbox` is present, a list of exactly 4 elements, all numeric and
nonnegative; every other record is dropped (the pass is a total
function — nothing is raised). -/
theorem C7_normalizer_bbox_filter (d : CocoMerge.ConvData) :
    (∀ a ∈ (CocoMerge.clean_annotations d).annotations.getD [],
        a.segmentation = []) ∧
    (∀ a : CocoMerge.Ann,
        a ∈ (CocoMerge.clean_annotations d).annotations.getD [] ↔
        ∃ a₀ ∈ d.annotations.getD [],
          CocoMerge.validBBox a₀.bbox = true ∧
          a = { a₀ with segmentation := [] }) := by
  constructor
  · intro a ha
    simp only [CocoMerge.clean_annotations, Option.getD_some,
      List.mem_filterMap] at ha
    obtain ⟨a₀, -, h⟩ := ha
    rcases (CocoMerge.cleanStep_eq_some a₀ a).1 h with ⟨-, rfl⟩
    rfl
  · intro a
    simp only [CocoMerge.clean_annotations, Option.getD_some,
      List.mem_filterMap]
    constructor
    · rintro ⟨a₀, h₀, h⟩
      exact ⟨a₀, h₀, (CocoMerge.cleanStep_eq_some a₀ a).1 h⟩
    · rintro ⟨a₀, h₀, hv, rfl⟩
      exact ⟨a₀, h₀, (CocoMerge.cleanStep_eq_some _ _).2 ⟨hv, rfl⟩⟩

/-- C8: the normalizer's cleaning pass is idempotent — applying
`clean_annotations` to its own output changes nothing. -/
theorem C8_normalizer_idempotent (d : CocoMerge.ConvData) :
    CocoMerge.clean_annotations (CocoMerge.clean_annotations d) =
      CocoMerge.clean_annotations d := by
  have hfm : ∀ l : List CocoMerge.Ann,
      (l.filterMap CocoMerge.cleanStep).filterMap CocoMerge.cleanStep =
        l.filterMap CocoMerge.cleanStep := by
    intro l
    induction l with
    | nil => rfl
    | cons a t ih =>
        cases h : CocoMerge.cleanStep a with
        | none => simpa [List.filterMap_cons, h] using ih
        | some b =>
            simp [List.filterMap_cons, h, CocoMerge.cleanStep_idem a b h, ih]
  simp only [CocoMerge.clean_annotations, Option.getD_some]
  exact congrArg _ (congrArg _ (hfm _))

/-- C7 witness: the spec's own scenario — in `c7data` the record with
`bbox = [10, 10, -5, 20]` is dropped and the record with
`bbox = [0, 0, 5, 5]` is kept with `segmentation = []`. -/
theorem C7_witness :
    c7kept.segmentation = [] ∧
    (c7kept ∈ (CocoMerge.clean_annotations c7data).annotations.getD [] ↔
      ∃ a₀ ∈ c7data.annotations.getD [],
        CocoMerge.validBBox a₀.bbox = true ∧
        c7kept = { a₀ with segmentation := [] }) :=
  ⟨(C7_normalizer_bbox_filter c7data).1 c7kept (by decide),
    (C7_normalizer_bbox_filter c7data).2 c7kept⟩

/-- C1 (amended): `image_id` referential integrity holds
unconditionally in every merge strategy's output — in the homogeneous
merger, the heterogeneous pair merger and the directory combiner, every
output annotation's `image_id` equals the id of some output image. The
`category_id` side holds for the homogeneous merger provided every
source annotation's `category_id` occurs among its own file's category
ids; without that proviso it is false — see the counterexample. -/
theorem C1_referential_integrity :
    (∀ ds : List CocoMerge.CocoData,
      ∀ a ∈ (CocoMerge.clean_empty_fields
          (CocoMerge.process_all_files ds)).annotations.getD [],
        ∃ img ∈ (CocoMerge.clean_empty_fields
            (CocoMerge.process_all_files ds)).images.getD [],
          img.id = a.image_id) ∧
    (∀ ds : List CocoMerge.CocoData,
      (∀ d ∈ ds, ∀ a ∈ d.annotations.getD [],
        ∃ c ∈ d.categories.getD [], c.id = a.category_id) →
      ∀ a ∈ (CocoMerge.clean_empty_fields
          (CocoMerge.process_all_files ds)).annotations.getD [],
        ∃ c ∈ (CocoMerge.clean_empty_fields
            (CocoMerge.process_all_files ds)).categories.getD [],
          c.id = a.category_id) ∧
    (∀ (sImgs fImgs : List (String × CocoMerge.Image))
        (sAnns fAnns : List (String × CocoMerge.Ann)),
      ∀ a ∈ (CocoMerge.merge_annotations sImgs fImgs sAnns fAnns).2,
        ∃ img ∈ (CocoMerge.merge_annotations sImgs fImgs sAnns fAnns).1,
          img.id = a.image_id) ∧
    (∀ sd fd : List (String × (CocoMerge.Image × List CocoMerge.Ann)),
      ∀ a ∈ (CocoMerge.combine_datasets sd fd).2,
        ∃ img ∈ (CocoMerge.combine_datasets sd fd).1,
          img.id = a.image_id) := by
  refine ⟨?_, ?_, ?_, ?_⟩
  · intro ds a ha
    obtain ⟨-, m3⟩ := CocoMerge.refimg_process_all_files ds
    rw [show (CocoMerge.clean_empty_fields
          (CocoMerge.process_all_files ds)).annotations =
        CocoMerge.dropEmpty (CocoMerge.process_all_files ds).annotations
        from rfl, CocoMerge.dropEmpty_getD] at ha
    rw [show (CocoMerge.clean_empty_fields
          (CocoMerge.process_all_files ds)).images =
        CocoMerge.dropEmpty (CocoMerge.process_all_files ds).images
        from rfl, CocoMerge.dropEmpty_getD]
    exact m3 a ha
  · intro ds hds a ha
    obtain ⟨-, -, -, m4⟩ := CocoMerge.ref_process_all_files ds hds
    rw [show (CocoMerge.clean_empty_fields
          (CocoMerge.process_all_files ds)).annotations =
        CocoMerge.dropEmpty (CocoMerge.process_all_files ds).annotations
        from rfl, CocoMerge.dropEmpty_getD] at ha
    rw [show (CocoMerge.clean_empty_fields
          (CocoMerge.process_all_files ds)).categories =
        CocoMerge.dropEmpty (CocoMerge.process_all_files ds).categories
        from rfl, CocoMerge.dropEmpty_getD]
    exact m4 a ha
  · intro sImgs fImgs sAnns fAnns a ha
    exact CocoMerge.merge_ann_fold_imgref sAnns fAnns
      (CocoMerge.merged_images_dict sImgs fImgs)
      (CocoMerge.merged_images_dict sImgs fImgs) ([], 1)
      (fun q hq => hq) (fun x hx => absurd hx (List.not_mem_nil x)) a ha
  · intro sd fd a ha
    exact CocoMerge.combine_fold_imgref sd fd
      (CocoMerge.unionKeys sd fd) ([], [], 1, 1)
      (fun x hx => absurd hx (List.not_mem_nil x)) a ha

/-- C1 counterexample: merging `c1badFile`, whose annotation carries
`category_id = 99` while the file's only category has id 1, produces an
output whose single annotation still has `category_id = 99` but whose
categories list has only id 1 — a dangling category reference,
contradicting the claim for the homogeneous strategy. -/
theorem C1_counterexample :
    (CocoMerge.mergerRun [some c1badFile]).map
        (fun o => (o.annotations.getD []).map CocoMerge.Ann.category_id) =
      Except.ok [99] ∧
    (CocoMerge.mergerRun [some c1badFile]).map
        (fun o => (o.categories.getD []).map CocoMerge.Category.id) =
      Except.ok [1] :=
  ⟨rfl, rfl⟩

/-- C1 witness: the amended theorem applied concretely — both
homogeneous conclusions at `c1goodFile`'s merged annotation `c1outAnn`
(the category part discharging its proviso), the pair merger at
`c1simgs`/`c1sanns`, and the directory combiner at `c1sd`. -/
theorem C1_witness :
    (∃ img ∈ (CocoMerge.clean_empty_fields
        (CocoMerge.process_all_files [c1goodFile])).images.getD [],
      img.id = CocoMerge.c1outAnn.image_id) ∧
    (∃ c ∈ (CocoMerge.clean_empty_fields
        (CocoMerge.process_all_files [c1goodFile])).categories.getD [],
      c.id = CocoMerge.c1outAnn.category_id) ∧
    (∃ img ∈ (CocoMerge.merge_annotations c1simgs [] c1sanns []).1,
      img.id = CocoMerge.c1pairAnn.image_id) ∧
    (∃ img ∈ (CocoMerge.combine_datasets c1sd []).1,
      img.id = CocoMerge.c1dirAnn.image_id) :=
  ⟨C1_referential_integrity.1 [c1goodFile] CocoMerge.c1outAnn (by decide),
   C1_referential_integrity.2.1 [c1goodFile] (by decide)
     CocoMerge.c1outAnn (by decide),
   C1_referential_integrity.2.2.1 c1simgs [] c1sanns []
     CocoMerge.c1pairAnn (by decide),
   C1_referential_integrity.2.2.2 c1sd [] CocoMerge.c1dirAnn (by decide)⟩

/-- C2 (amended): the homogeneous merger's output license, category,
image and annotation id sequences are each exactly `1..N`; in the
heterogeneous pair merger and directory combiner the image and
annotation id sequences are each exactly `1..N`. (The het mergers'
category ids are the primary's original ids plus `max + 1`, and their
license list is copied verbatim, so the claim fails there — see the
counterexample.) -/
theorem C2_dense_ids :
    (∀ ds : List CocoMerge.CocoData,
      (((CocoMerge.clean_empty_fields
          (CocoMerge.process_all_files ds)).licenses.getD []).map
        CocoMerge.License.id =
        CocoMerge.intRange 1 ((CocoMerge.clean_empty_fields
          (CocoMerge.process_all_files ds)).licenses.getD []).length) ∧
      (((CocoMerge.clean_empty_fields
          (CocoMerge.process_all_files ds)).categories.getD []).map
        CocoMerge.Category.id =
        CocoMerge.intRange 1 ((CocoMerge.clean_empty_fields
          (CocoMerge.process_all_files ds)).categories.getD []).length) ∧
      (((CocoMerge.clean_empty_fields
          (CocoMerge.process_all_files ds)).images.getD []).map
        CocoMerge.Image.id =
        CocoMerge.intRange 1 ((CocoMerge.clean_empty_fields
          (CocoMerge.process_all_files ds)).images.getD []).length) ∧
      (((CocoMerge.clean_empty_fields
          (CocoMerge.process_all_files ds)).annotations.getD []).map
        CocoMerge.Ann.id =
        CocoMerge.intRange 1 ((CocoMerge.clean_empty_fields
          (CocoMerge.process_all_files ds)).annotations.getD []).length)) ∧
    (∀ (sImgs fImgs : List (String × CocoMerge.Image))
        (sAnns fAnns : List (String × CocoMerge.Ann)),
      ((CocoMerge.merge_annotations sImgs fImgs sAnns fAnns).1.map
        CocoMerge.Image.id =
        CocoMerge.intRange 1
          (CocoMerge.merge_annotations sImgs fImgs sAnns fAnns).1.length) ∧
      ((CocoMerge.merge_annotations sImgs fImgs sAnns fAnns).2.map
        CocoMerge.Ann.id =
        CocoMerge.intRange 1
          (CocoMerge.merge_annotations sImgs fImgs sAnns fAnns).2.length)) ∧
    (∀ sd fd : List (String × (CocoMerge.Image × List CocoMerge.Ann)),
      ((CocoMerge.combine_datasets sd fd).1.map CocoMerge.Image.id =
        CocoMerge.intRange 1 (CocoMerge.combine_datasets sd fd).1.length) ∧
      ((CocoMerge.combine_datasets sd fd).2.map CocoMerge.Ann.id =
        CocoMerge.intRange 1 (CocoMerge.combine_datasets sd fd).2.length)) := by
  refine ⟨?_, ?_, ?_⟩
  · intro ds
    obtain ⟨d1, d2, d3, d4, d5, d6, d7, d8⟩ :=
      CocoMerge.dense_process_all_files ds
    refine ⟨?_, ?_, ?_, ?_⟩
    · rw [show (CocoMerge.clean_empty_fields
          (CocoMerge.process_all_files ds)).licenses =
        CocoMerge.dropEmpty (CocoMerge.process_all_files ds).licenses
        from rfl, CocoMerge.dropEmpty_getD]
      exact d1
    · rw [show (CocoMerge.clean_empty_fields
          (CocoMerge.process_all_files ds)).categories =
        CocoMerge.dropEmpty (CocoMerge.process_all_files ds).categories
        from rfl, CocoMerge.dropEmpty_getD]
      exact d3
    · rw [show (CocoMerge.clean_empty_fields
          (CocoMerge.process_all_files ds)).images =
        CocoMerge.dropEmpty (CocoMerge.process_all_files ds).images
        from rfl, CocoMerge.dropEmpty_getD]
      exact d5
    · rw [show (CocoMerge.clean_empty_fields
          (CocoMerge.process_all_files ds)).annotations =
        CocoMerge.dropEmpty (CocoMerge.process_all_files ds).annotations
        from rfl, CocoMerge.dropEmpty_getD]
      exact d7
  · intro sImgs fImgs sAnns fAnns
    constructor
    · show ((CocoMerge.merged_images_dict sImgs fImgs).map Prod.snd).map
          CocoMerge.Image.id =
        CocoMerge.intRange 1
          ((CocoMerge.merged_images_dict sImgs fImgs).map Prod.snd).length
      rw [List.map_map, List.length_map]
      exact (CocoMerge.merge_img_fold_dense sImgs fImgs
        (CocoMerge.unionKeys sImgs fImgs) ([], 1) rfl (by simp)).1
    · exact (CocoMerge.merge_ann_fold_dense sAnns fAnns
        (CocoMerge.merged_images_dict sImgs fImgs) ([], 1) rfl (by simp)).1
  · intro sd fd
    exact CocoMerge.combine_fold_dense sd fd (CocoMerge.unionKeys sd fd)
      ([], [], 1, 1) rfl (by simp) rfl (by simp)

/-- C2 counterexample: with primary category ids 2 and 3 the pair
merger's output category ids are `[2, 3, 4]`, not the dense sequence
`1, 2, 3` the claim requires of every merge strategy's output. -/
theorem C2_counterexample :
    (CocoMerge.pairMerge c2straw c2flower).map
        (fun o => o.categories.map CocoMerge.Category.id) =
      Except.ok [2, 3, 4] ∧
    ([2, 3, 4] : List Int) ≠ CocoMerge.intRange 1 3 :=
  ⟨rfl, by decide⟩

/-- C3 (amended): the homogeneous merger keeps an annotation of file
`d` iff its `image_id` is a key of the accumulated `image_id_map`, whose
keys after the image pass of `d` are exactly the original image ids of
all files processed so far (`pre` and `d`) — not of `d` alone; a kept
annotation is copied with a fresh id, its `image_id` rewritten through
the map, and all other fields (including `confidence`/`orientation`)
carried over, with only `category_id` possibly rewritten. -/
theorem C3_orphan_drop (pre : List CocoMerge.CocoData)
    (d : CocoMerge.CocoData) :
    (∀ a : CocoMerge.Ann,
      ((CocoMerge.alookup a.image_id
        ((CocoMerge.stBeforeAnns (CocoMerge.process_all_files pre) d
          ).image_id_map)).isSome = true ↔
        a.image_id ∈ CocoMerge.oldImageIds (pre ++ [d]))) ∧
    (∀ (st : CocoMerge.MergerState) (a : CocoMerge.Ann),
      CocoMerge.alookup a.image_id st.image_id_map = none →
      CocoMerge.process_ann d st a = st) ∧
    (∀ (st : CocoMerge.MergerState) (a : CocoMerge.Ann) (j : Int),
      CocoMerge.alookup a.image_id st.image_id_map = some j →
      ∃ cid, CocoMerge.process_ann d st a = { st with
        annotations := st.annotations ++ [{ a with
          id := st.next_annotation_id, image_id := j, category_id := cid }],
        next_annotation_id := st.next_annotation_id + 1 }) := by
  refine ⟨?_, ?_, ?_⟩
  · intro a
    unfold CocoMerge.stBeforeAnns CocoMerge.process_images
    rw [CocoMerge.imap_keys_images_fold, CocoMerge.imap_process_categories,
      CocoMerge.imap_process_licenses, CocoMerge.imap_process_info,
      CocoMerge.imap_keys_all, CocoMerge.oldImageIds_append,
      show CocoMerge.oldImageIds [d] =
        (d.images.getD []).map CocoMerge.Image.id from by
          simp [CocoMerge.oldImageIds]]
    simp only [List.mem_append]
    tauto
  · intro st a h
    exact CocoMerge.process_ann_of_none d st a h
  · intro st a j h
    exact CocoMerge.process_ann_of_some d st a j h

/-- C3 counterexample: file `c3fileB` has no images at all, yet its
annotation (whose `image_id` 7 matches only `c3fileA`'s image) is kept
and remapped to image id 1 — the claim's "dropped iff not among the same
file's image ids" is false because the old-id table is accumulated
across files, never reset per source. -/
theorem C3_counterexample :
    (CocoMerge.process_all_files [c3fileA, c3fileB]).annotations.map
      CocoMerge.Ann.image_id = [1] ∧
    (c3fileB.images.getD []).map CocoMerge.Image.id = ([] : List Int) :=
  ⟨rfl, rfl⟩

/-- C3 witness: the amended theorem applied to the one-file history
`[c3dW]` and the concrete annotations `c3aDrop` (no matching key, state
unchanged) and `c3aKeep` (key 7 bound to 1 in `c3stW`). -/
theorem C3_witness :
    ((CocoMerge.alookup c3aKeep.image_id
      ((CocoMerge.stBeforeAnns (CocoMerge.process_all_files []) c3dW
        ).image_id_map)).isSome = true ↔
      c3aKeep.image_id ∈ CocoMerge.oldImageIds ([] ++ [c3dW])) ∧
    CocoMerge.process_ann c3dW CocoMerge.initState c3aDrop =
      CocoMerge.initState ∧
    (∃ cid, CocoMerge.process_ann c3dW c3stW c3aKeep = { c3stW with
      annotations := c3stW.annotations ++ [{ c3aKeep with
        id := c3stW.next_annotation_id, image_id := 1,
        category_id := cid }],
      next_annotation_id := c3stW.next_annotation_id + 1 }) :=
  ⟨(C3_orphan_drop [] c3dW).1 c3aKeep,
   (C3_orphan_drop [] c3dW).2.1 CocoMerge.initState c3aDrop rfl,
   (C3_orphan_drop [] c3dW).2.2 c3stW c3aKeep 1 rfl⟩

/-- C4: interning a category whose natural key was already seen leaves
the merger state unchanged (it resolves to the first-seen id in the
map), and merging `[A, A]` yields the same category list as `[A]`. -/
theorem C4_category_dedup :
    (∀ (st : CocoMerge.MergerState) (c : CocoMerge.Category),
      (CocoMerge.alookup (CocoMerge.catKey c) st.category_map).isSome = true →
      CocoMerge.internCategory st c = st) ∧
    (∀ A : CocoMerge.CocoData,
      (CocoMerge.process_all_files [A, A]).categories =
        (CocoMerge.process_all_files [A]).categories) := by
  refine ⟨CocoMerge.internCategory_seen, ?_⟩
  intro A
  have h0 : CocoMerge.process_all_files [A, A] =
      CocoMerge.process_file (CocoMerge.process_all_files [A]) A := rfl
  rw [h0]
  set st1 := CocoMerge.process_all_files [A] with hst1
  have hkeys : ∀ c ∈ A.categories.getD [],
      (CocoMerge.alookup (CocoMerge.catKey c) st1.category_map).isSome
        = true :=
    CocoMerge.keys_after_process_file CocoMerge.initState A
  have e1 : (CocoMerge.process_file st1 A).categories =
      (CocoMerge.stBeforeAnns st1 A).categories :=
    (CocoMerge.catfields_process_anns (CocoMerge.stBeforeAnns st1 A) A).2
  have e2 : (CocoMerge.stBeforeAnns st1 A).categories =
      (CocoMerge.process_categories (CocoMerge.process_licenses
        (CocoMerge.process_info st1 A) A) A).categories :=
    (CocoMerge.catfields_process_images _ A).2
  have e3 : CocoMerge.process_categories (CocoMerge.process_licenses
      (CocoMerge.process_info st1 A) A) A =
      CocoMerge.process_licenses (CocoMerge.process_info st1 A) A := by
    unfold CocoMerge.process_categories
    apply CocoMerge.categories_fold_seen
    intro c hc
    rw [(CocoMerge.catfields_process_licenses
      (CocoMerge.process_info st1 A) A).1,
      (CocoMerge.catfields_process_info st1 A).1]
    exact hkeys c hc
  have e4 : (CocoMerge.process_licenses
      (CocoMerge.process_info st1 A) A).categories =
      (CocoMerge.process_info st1 A).categories :=
    (CocoMerge.catfields_process_licenses _ A).2
  have e5 : (CocoMerge.process_info st1 A).categories = st1.categories :=
    (CocoMerge.catfields_process_info st1 A).2
  rw [e1, e2, e3, e4, e5]

/-- C4 witness: the theorem applied to the already-interned key of
`c4st`/`c4cat` and to the concrete file `c4file`. -/
theorem C4_witness :
    CocoMerge.internCategory c4st c4cat = c4st ∧
    (CocoMerge.process_all_files [c4file, c4file]).categories =
      (CocoMerge.process_all_files [c4file]).categories :=
  ⟨C4_category_dedup.1 c4st c4cat (by decide), C4_category_dedup.2 c4file⟩

/-- C5 (amended): a malformed-JSON source file anywhere in the input
aborts the whole homogeneous run with the propagated error and no
output value; but files missing required top-level fields do NOT abort —
absent fields are read as empty defaults and the run completes normally
(no `MissingRequiredField` validation exists in this merger). -/
theorem C5_malformed_aborts :
    (∀ (pre post : List (Option CocoMerge.CocoData)),
      CocoMerge.mergerRun (pre ++ none :: post) =
        Except.error CocoMerge.MergeError.malformedJSON) ∧
    (∀ ds : List CocoMerge.CocoData,
      CocoMerge.mergerRun (ds.map some) =
        Except.ok (CocoMerge.clean_empty_fields
          (CocoMerge.process_all_files ds))) := by
  constructor
  · intro pre post
    unfold CocoMerge.mergerRun
    rw [CocoMerge.loadStep_fold_error pre post CocoMerge.initState]
    rfl
  · intro ds
    unfold CocoMerge.mergerRun
    rw [CocoMerge.loadStep_fold_ok ds CocoMerge.initState]
    rfl

/-- C5 counterexample: `c5empty` is valid JSON but misses all five
required fields; the claim says the run aborts, yet the merger completes
and produces (writes) an output value. -/
theorem C5_counterexample :
    CocoMerge.mergerRun [some c5empty] =
      Except.ok { info := none, licenses := none, images := none,
                  annotations := none, categories := none } :=
  rfl

/-- C6: whenever the pair merge succeeds (the three category ids are
present and truthy), the output categories array is exactly
`[fruit_ripe(a), fruit_unripe(b), flower(max a b + 1)]` with the
primary's original ids, and the renumbered flower id strictly exceeds
both primary ids. -/
theorem C6_fixed_categories (s f : CocoMerge.PairData) (a b c : Int)
    (hra : CocoMerge.pyGetName s.categories "fruit_ripe" = some a)
    (ha : a ≠ 0)
    (hrb : CocoMerge.pyGetName s.categories "fruit_unripe" = some b)
    (hb : b ≠ 0)
    (hfc : CocoMerge.pyGetName f.categories "flower" = some c)
    (hc : c ≠ 0) :
    ((CocoMerge.pairMerge s f).map (fun o => o.categories) =
      Except.ok
        [{ id := a, name := "fruit_ripe", supercategory := none },
         { id := b, name := "fruit_unripe", supercategory := none },
         { id := max a b + 1, name := "flower", supercategory := none }]) ∧
    a < max a b + 1 ∧ b < max a b + 1 := by
  unfold CocoMerge.pairMerge
  rw [hra, hrb, hfc]
  have hcond : (CocoMerge.truthyOptInt (some a) &&
      CocoMerge.truthyOptInt (some b) &&
      CocoMerge.truthyOptInt (some c)) = true := by
    simp [CocoMerge.truthyOptInt, ha, hb, hc]
  rw [if_pos hcond]
  refine ⟨rfl, ?_, ?_⟩
  · have h1 := le_max_left a b
    omega
  · have h1 := le_max_right a b
    omega

/-- C6 witness: the spec's scenario — primary ids 1 and 2, secondary
flower id 7, merged flower id `max 1 2 + 1 = 3`. -/
theorem C6_witness :
    ((CocoMerge.pairMerge c6straw c6flower).map (fun o => o.categories) =
      Except.ok
        [{ id := 1, name := "fruit_ripe", supercategory := none },
         { id := 2, name := "fruit_unripe", supercategory := none },
         { id := max 1 2 + 1, name := "flower", supercategory := none }]) ∧
    (1 : Int) < max 1 2 + 1 ∧ (2 : Int) < max 1 2 + 1 :=
  C6_fixed_categories c6straw c6flower 1 2 7 rfl (by decide) rfl (by decide)
    rfl (by decide)

/-- C9 (amended): the pair merger's organize pass does not copy — every
grouped annotation it emits is (the value of) the post-state source
record itself, and the post-state source records are either untouched or
mutated in place to carry the new flower category id; hence entities are
aliased with the loaded source and the merge mutates the source dataset. -/
theorem C9_no_copy (d : CocoMerge.PairData)
    (valid : List (String × Int)) (nfi : Option Int) :
    (∀ p ∈ (CocoMerge.organize_annotations d valid nfi).1,
      p.2 ∈ (CocoMerge.organize_annotations d valid nfi).2) ∧
    (∀ a' ∈ (CocoMerge.organize_annotations d valid nfi).2,
      a' ∈ d.annotations ∨
      ∃ k a₀, nfi = some k ∧ a₀ ∈ d.annotations ∧
        a' = { a₀ with category_id := k }) := by
  constructor
  · intro p hp
    unfold CocoMerge.organize_annotations at hp ⊢
    obtain ⟨fn, a'⟩ := p
    obtain ⟨a₀, ha₀, hstep⟩ := List.mem_filterMap.1 hp
    have h2 := (CocoMerge.organize_step_cases d.images valid nfi a₀).2.1
      fn a' hstep
    exact List.mem_map.2 ⟨a₀, ha₀, h2.symm⟩
  · intro a' ha'
    unfold CocoMerge.organize_annotations at ha'
    obtain ⟨a₀, ha₀, hstep⟩ := List.mem_map.1 ha'
    rcases (CocoMerge.organize_step_cases d.images valid nfi a₀).2.2 with
      h | ⟨k, hk, h⟩
    · left; rw [← hstep, h]; exact ha₀
    · right; exact ⟨k, a₀, hk, ha₀, by rw [← hstep, h]⟩

/-- C9 counterexample: running the pair merge on `c9straw`/`c9flower`
succeeds, and its organize pass over the flower source — invoked by
`pairMerge` with exactly the dict `[("flower", 7)]` and new id
`some 3 = max(1, 2) + 1` — leaves the loaded flower annotation list in a
state different from the loaded value: the merge mutates its source,
so output entities are not deep copies of an untouched source. -/
theorem C9_counterexample :
    (CocoMerge.organize_annotations c9flower [("flower", 7)] (some 3)).2 ≠
      c9flower.annotations ∧
    (CocoMerge.pairMerge c9straw c9flower).toOption.isSome = true :=
  ⟨by decide, rfl⟩

/-- C9 witness: the amended theorem applied to the concrete flower data;
`c9mut` is the in-place-mutated record (category 7 rewritten to 3). -/
theorem C9_witness :
    c9mut ∈ (CocoMerge.organize_annotations c9flower
      [("flower", 7)] (some 3)).2 ∧
    (c9mut ∈ c9flower.annotations ∨
      ∃ k a₀, (some 3 : Option Int) = some k ∧
        a₀ ∈ c9flower.annotations ∧
        c9mut = { a₀ with category_id := k }) :=
  ⟨(C9_no_copy c9flower [("flower", 7)] (some 3)).1
      ("f.jpg", c9mut) (by decide),
   (C9_no_copy c9flower [("flower", 7)] (some 3)).2 c9mut (by decide)⟩

/-- C10: in both heterogeneous mergers, a filename present in the
primary (strawberry) dict always contributes the primary side's image
record (re-stamped with a fresh id) to the merged output — the secondary
side's record for that filename is the one discarded. -/
theorem C10_primary_wins :
    (∀ (sImgs fImgs : List (String × CocoMerge.Image)) (fn : String)
        (img : CocoMerge.Image),
      CocoMerge.pyGet sImgs fn = some img →
      ∃ i, CocoMerge.pyGet (CocoMerge.merged_images_dict sImgs fImgs) fn =
        some { img with id := i }) ∧
    (∀ (sd fd : List (String × (CocoMerge.Image × List CocoMerge.Ann)))
        (name : String) (pr : CocoMerge.Image × List CocoMerge.Ann),
      CocoMerge.pyGet sd name = some pr →
      ∃ i, { pr.1 with id := i } ∈ (CocoMerge.combine_datasets sd fd).1) := by
  constructor
  · intro sImgs fImgs fn img h
    unfold CocoMerge.merged_images_dict
    exact CocoMerge.merged_lookup_fold sImgs fImgs
      (CocoMerge.unionKeys sImgs fImgs) ([], 1) fn img
      (CocoMerge.mem_unionKeys_left _ _ _
        (CocoMerge.pyGet_some_mem_keys _ _ _ h)) h rfl
  · intro sd fd name pr h
    exact CocoMerge.combine_fold_contains sd fd
      (CocoMerge.unionKeys sd fd) ([], [], 1, 1) name pr
      (CocoMerge.mem_unionKeys_left _ _ _
        (CocoMerge.pyGet_some_mem_keys _ _ _ h)) h

/-- C10 witness: the filename `a.jpg` is present on both sides with
different records; both mergers keep the primary record `c10img`. -/
theorem C10_witness :
    (∃ i, CocoMerge.pyGet
        (CocoMerge.merged_images_dict c10simgs c10fimgs) "a.jpg" =
      some { c10img with id := i }) ∧
    (∃ i, { c10img with id := i } ∈
      (CocoMerge.combine_datasets c10sd c10fd).1) :=
  ⟨C10_primary_wins.1 c10simgs c10fimgs "a.jpg" c10img rfl,
   C10_primary_wins.2 c10sd c10fd "a.jpg" (c10img, []) rfl⟩

end CocoMerge
